import Mathlib

/-!
HTTP-Web-Server-in-Go: the per-connection handler of `server.go`.

A shallow embedding of `handleConnection`, `handleFileRequest` and
`handleFileUpload` together with the library routines they call
(`strings`, `strconv.Atoi`, `bufio.Scanner`, `bufio.Reader`,
`filepath.Join`, `fmt.Sprintf`).

Conventions.
* A Go string or byte slice is a list with one element per byte (`Str`).
* The request line has already been split by `fmt.Fscanf` into method, path
  and version; `conn` holds what the client sends after the request line, as
  the list of segments in which the bytes become available to successive
  `Read` calls on the connection, followed by end of stream.
* The file system is an explicit value (`FS`); `stat`, `open`, `read` and
  `create` consult it and may fail.
* Writes to the connection and to an open file succeed.
-/

set_option maxRecDepth 100000

namespace HttpServer

/-- A Go string: a sequence of bytes. -/
abbrev Str := List Char

/-! ## `strings` -/

/-- Go `strings.HasPrefix(s, pre)`. -/
def HasPrefix (s pre : Str) : Bool := pre.isPrefixOf s

/-- Go `strings.TrimSuffix(s, suf)`. -/
def TrimSuffix (s suf : Str) : Str :=
  if suf.isSuffixOf s then s.take (s.length - suf.length) else s

/-- Go `strings.Split(s, sep)` for a one-byte separator: the pieces between
occurrences of `sep`; a string without `sep` (the empty one too) gives one piece. -/
def Split (sep : Char) : Str → List Str
  | [] => [[]]
  | c :: t =>
    if c = sep then [] :: Split sep t
    else match Split sep t with
      | [] => [[c]]
      | piece :: rest => (c :: piece) :: rest

/-- Go `strings.Trim(s, " ")`: leading and trailing spaces removed. -/
def TrimSpaces (s : Str) : Str :=
  ((s.dropWhile (fun c => c = ' ')).reverse.dropWhile (fun c => c = ' ')).reverse

/-! ## `fmt.Sprintf` -/

/-- The verb `%d` applied to a non-negative integer. -/
def itoa (n : Nat) : Str := Nat.toDigits 10 n

/-- The response of `handleConnection` (line 132):
`"HTTP/1.1 %d %s\r\n%sContent-Type: text/plain\r\nContent-Length: %d\r\n\r\n%s\r\n"`
applied to `statusCode, statusMessage, extraHeaders, len(responseBody), responseBody`. -/
def httpResponse (statusCode : Nat) (statusMessage extraHeaders responseBody : Str) : Str :=
  "HTTP/1.1 ".toList ++ itoa statusCode ++ " ".toList ++ statusMessage ++ "\r\n".toList
    ++ extraHeaders ++ "Content-Type: text/plain\r\nContent-Length: ".toList
    ++ itoa responseBody.length ++ "\r\n\r\n".toList ++ responseBody ++ "\r\n".toList

/-- The header block of `handleFileRequest` (line 165):
`"HTTP/1.1 %d %s\r\nContent-Type: application/octet-stream\r\nContent-Length: %d\r\n\r\n"`. -/
def httpHeader (statusCode : Nat) (statusMessage : Str) (size : Nat) : Str :=
  "HTTP/1.1 ".toList ++ itoa statusCode ++ " ".toList ++ statusMessage
    ++ "\r\nContent-Type: application/octet-stream\r\nContent-Length: ".toList
    ++ itoa size ++ "\r\n\r\n".toList

/-! ## `bufio.Scanner` with the default `ScanLines` split function -/

/-- Go `bufio.MaxScanTokenSize`: the largest buffer a default Scanner uses. -/
def maxScanTokenSize : Nat := 64 * 1024

/-- The helper `dropCR` of `bufio.ScanLines`: one trailing carriage return is removed. -/
def dropCR (line : Str) : Str :=
  if line.getLast? = some '\r' then line.dropLast else line

/-- The tokens that successive `scanner.Scan()` calls deliver for the remaining
stream: `cur` is the part of the current line already seen. A line is delivered
when it fits, with its newline, into the Scanner buffer of `maxScanTokenSize`
bytes; at a longer line `Scan` returns false (`ErrTooLong`) and stays false. A
final line without newline is delivered when it is not empty. -/
def scanLinesFrom : Str → Str → List Str
  | cur, [] => if cur = [] then [] else if cur.length < maxScanTokenSize then [dropCR cur] else []
  | cur, c :: t =>
    if c = '\n' then
      if cur.length < maxScanTokenSize then dropCR cur :: scanLinesFrom [] t else []
    else scanLinesFrom (cur ++ [c]) t

/-- All lines a fresh Scanner on the stream delivers. -/
def scanLines (stream : Str) : List Str := scanLinesFrom [] stream

/-! ## The routes that scan headers -/

/-- Lines 80-87: the loop of the `/user-agent` route over the scanned lines. The
body is taken from the first line with the prefix; no other line ends the loop. -/
def userAgentScan : List Str → Str
  | [] => []
  | line :: rest =>
    if HasPrefix line "User-Agent: ".toList then line.drop 12 else userAgentScan rest

/-- Lines 93-101: the loop of the `/echo/` route; `acceptEncodings` is the value
held so far. An empty line ends the loop. -/
def acceptEncodingsScan (acceptEncodings : Str) : List Str → Str
  | [] => acceptEncodings
  | line :: rest =>
    if HasPrefix line "Accept-Encoding: ".toList then acceptEncodingsScan (line.drop 17) rest
    else if line = [] then acceptEncodings
    else acceptEncodingsScan acceptEncodings rest

/-- Lines 103-113: whether some element of the comma separated list is `gzip`
once the spaces around it are trimmed. -/
def wantsGzip (acceptEncodings : Str) : Bool :=
  (Split ',' acceptEncodings).any (fun acceptEncoding => TrimSpaces acceptEncoding = "gzip".toList)

/-! ## `strconv.Atoi` (64-bit `int`) -/

/-- The value of a string of decimal digits. -/
def digitsValue (ds : Str) : Nat := ds.foldl (fun acc c => 10 * acc + (c.toNat - 48)) 0

/-- Go `strconv.Atoi`: the value and whether the error is nil. An optional sign
is followed by at least one decimal digit, anything else is a syntax error with
value 0; a value outside the range of `int` is a range error whose value is the
nearest bound of the range. -/
def Atoi (s : Str) : Int × Bool :=
  let neg : Bool := s.head? = some '-'
  let ds : Str := if s.head? = some '-' ∨ s.head? = some '+' then s.drop 1 else s
  if ds = [] ∨ ds.all Char.isDigit = false then (0, false)
  else
    let un : Nat := digitsValue ds
    if neg = false ∧ 2 ^ 63 ≤ un then (2 ^ 63 - 1, false)
    else if neg = true ∧ 2 ^ 63 < un then (-(2 ^ 63), false)
    else (if neg then -(un : Int) else (un : Int), true)

/-! ## The connection and `bufio.Reader` -/

/-- One `Read` on the connection with room for `n > 0` bytes: `none` at end of
stream, otherwise the bytes delivered (at most `n`, all from the segment that
is available) and the rest of the connection. -/
def connRead (n : Nat) : List Str → Option (Str × List Str)
  | [] => none
  | seg :: rest =>
    if seg = [] then connRead n rest
    else some (seg.take n, if seg.drop n = [] then rest else seg.drop n :: rest)

/-- Number of bytes the connection still delivers. -/
def connBytes (conn : List Str) : Nat := (conn.map List.length).sum

/-- Size of the buffer of `bufio.NewReader`. -/
def defaultBufSize : Nat := 4096

/-- The loop of `bufio.Reader.ReadString` with delimiter newline. `acc` holds
the fragments collected from full buffers, `buf` the buffered bytes not yet
consumed. Each round returns the line when the buffer holds a newline, moves a
full buffer to `acc`, or fills the buffer by one `Read` on the connection; at
end of stream what has been collected is returned. -/
def readStringLoop : Nat → Str → Str → List Str → Str × Str × List Str
  | 0, acc, buf, conn => (acc ++ buf, [], conn)
  | fuel + 1, acc, buf, conn =>
    match buf.span (fun c => c ≠ '\n') with
    | (line, _ :: unread) => (acc ++ line ++ ['\n'], unread, conn)
    | (_, []) =>
      if defaultBufSize ≤ buf.length then readStringLoop fuel (acc ++ buf) [] conn
      else
        match connRead (defaultBufSize - buf.length) conn with
        | none => (acc ++ buf, [], [])
        | some (got, conn1) => readStringLoop fuel acc (buf ++ got) conn1

/-- Go `reader.ReadString(10)` with the error dropped: the line, the bytes left in
the buffer and the rest of the connection. The loop takes at most two rounds for
each byte still to come. -/
def readString (buf : Str) (conn : List Str) : Str × Str × List Str :=
  readStringLoop (2 * connBytes conn + 3) [] buf conn

/-- Go `reader.Read(data)` with `len(data) = n`: `none` for an error, otherwise
the bytes stored in `data`. Buffered bytes are handed out without a further read
of the connection; with an empty buffer exactly one `Read` on the connection is
made (into `data` itself when `n` is at least the buffer size). -/
def readerRead (buf : Str) (conn : List Str) (n : Nat) : Option Str :=
  if n = 0 then some []
  else if buf = [] then
    match connRead (if defaultBufSize ≤ n then n else defaultBufSize) conn with
    | none => none
    | some (got, _) => some (got.take n)
  else some (buf.take n)

/-! ## The file system -/

/-- What `os.Stat` finds at a path. -/
inductive StatResult
  | notExist
  | statError
  | dir
  | file (content : Str)
  deriving DecidableEq

/-- What one `file.Read` into a buffer does: it fails, or it delivers at most
`k` bytes (`Read` reads up to `len(b)` bytes and may return fewer). -/
inductive ReadOutcome
  | fails
  | delivers (k : Nat)
  deriving DecidableEq

/-- File system state seen by the server. -/
structure FS where
  stat : Str → StatResult
  openFails : Str → Bool
  read : Str → ReadOutcome
  createFails : Str → Bool

/-- The state after `os.Create(path)` followed by `file.Write(data)`. -/
def FS.store (fs : FS) (path data : Str) : FS :=
  { fs with stat := fun p => if p = path then StatResult.file data else fs.stat p }

/-- Whether `os.Create(path)` succeeds. -/
def FS.canCreate (fs : FS) (path : Str) : Bool :=
  match fs.stat path with
  | StatResult.dir => false
  | _ => !fs.createFails path

/-- Lines 173-175: `file.Read(data)` from the start of a file into a buffer of
the size of the file: `none` for an error, otherwise the bytes delivered. -/
def fileRead (content : Str) (outcome : ReadOutcome) : Option Str :=
  match outcome with
  | ReadOutcome.fails => none
  | ReadOutcome.delivers k =>
    if content = [] then some []
    else if k = 0 then none
    else some (content.take k)

/-! ## `filepath.Join` -/

/-- One path element in `filepath.Clean`; `out` holds the elements written so
far, last one first. -/
def cleanStep (rooted : Bool) (out : List Str) (elem : Str) : List Str :=
  if elem = [] ∨ elem = ['.'] then out
  else if elem = ['.', '.'] then
    match out with
    | [] => if rooted then [] else [elem]
    | last :: before => if last = ['.', '.'] then elem :: out else before
  else elem :: out

/-- The elements of the cleaned path, first one first. -/
def cleanElems (path : Str) : List Str :=
  ((Split '/' path).foldl (cleanStep (path.head? = some '/')) []).reverse

/-- The path with the given elements. -/
def renderPath (rooted : Bool) (elems : List Str) : Str :=
  if rooted then '/' :: ['/'].intercalate elems
  else if elems = [] then ['.'] else ['/'].intercalate elems

/-- Go `filepath.Clean` on Unix. -/
def Clean (path : Str) : Str := renderPath (path.head? = some '/') (cleanElems path)

/-- Go `filepath.Join(dir, name)` on Unix. -/
def Join (dir name : Str) : Str :=
  if dir ≠ [] then Clean (dir ++ '/' :: name)
  else if name ≠ [] then Clean name
  else []

/-! ## `handleFileRequest` -/

/-- Lines 144-187: the bytes written to the connection and the returned
`statusCode, statusMessage`. After the header block has been written, a failing
`file.Read` still returns 500; otherwise the whole buffer `data` is written,
whatever number of bytes the read stored in it (the rest of `data` is zero). -/
def handleFileRequest (fs : FS) (path : Str) : Str × Nat × Str :=
  match fs.stat path with
  | StatResult.notExist => ([], 404, "Not Found".toList)
  | StatResult.statError => ([], 500, "Internal Server Error".toList)
  | StatResult.dir => ([], 500, "Internal Server Error".toList)
  | StatResult.file content =>
    if fs.openFails path then ([], 500, "Internal Server Error".toList)
    else
      let size := content.length
      let header := httpHeader 200 "OK".toList size
      match fileRead content (fs.read path) with
      | none => (header, 500, "Internal Server Error".toList)
      | some got =>
        let data := got ++ List.replicate (size - got.length) (Char.ofNat 0)
        (header ++ data, 200, "OK".toList)

/-! ## `handleFileUpload` -/

/-- Lines 199-208: the header loop. `contentLength` is the value held so far;
the loop ends at a line that is empty once a final CR LF is cut off. The value
of `strconv.Atoi` is stored whether or not it reports an error. -/
def uploadHeaderLoop : Nat → Int → Str → List Str → Int × Str × List Str
  | 0, contentLength, buf, conn => (contentLength, buf, conn)
  | fuel + 1, contentLength, buf, conn =>
    match readString buf conn with
    | (raw, buf1, conn1) =>
      let line := TrimSuffix raw "\r\n".toList
      if line.length = 0 then (contentLength, buf1, conn1)
      else if HasPrefix line "Content-Length: ".toList then
        uploadHeaderLoop fuel (Atoi (line.drop 16)).1 buf1 conn1
      else uploadHeaderLoop fuel contentLength buf1 conn1

/-- The header loop on a fresh reader: every round but the last consumes at
least one byte of the connection. -/
def uploadHeaders (conn : List Str) : Int × Str × List Str :=
  uploadHeaderLoop (connBytes conn + 1) 0 [] conn

/-- The Go runtime constant `maxAlloc` on 64-bit Linux: `make` panics for a
longer byte slice. -/
def maxAlloc : Nat := 2 ^ 48

/-- How a call of `handleFileUpload` ends. -/
inductive UploadResult
  | returned (statusCode : Nat) (statusMessage : Str) (fs : FS)
  | panicked (fs : FS)

/-- Lines 189-221. `os.Create` truncates the file before anything is read;
`make([]byte, contentLength)` panics for a negative or oversized length; one
`reader.Read` fills `data` and what it delivered is written to the file. -/
def handleFileUpload (fs : FS) (conn : List Str) (path : Str) : UploadResult :=
  if fs.canCreate path = false then
    UploadResult.returned 500 "Internal Server Error".toList fs
  else
    match uploadHeaders conn with
    | (contentLength, buf, conn1) =>
      if contentLength < 0 ∨ (maxAlloc : Int) < contentLength then
        UploadResult.panicked (fs.store path [])
      else
        match readerRead buf conn1 contentLength.toNat with
        | none => UploadResult.returned 500 "Internal Server Error".toList (fs.store path [])
        | some data => UploadResult.returned 201 "Created".toList (fs.store path data)

/-! ## `handleConnection` -/

/-- How the handling of one connection ends: the handler returns and the
connection is closed, or the goroutine panics (which ends the process). In both
cases `written` is everything that was written to the connection. -/
inductive Outcome
  | closed (written : Str) (fs : FS)
  | panicked (written : Str) (fs : FS)

/-- Bytes written to the connection. -/
def Outcome.written : Outcome → Str
  | Outcome.closed w _ => w
  | Outcome.panicked w _ => w

/-- File system left behind. -/
def Outcome.fs : Outcome → FS
  | Outcome.closed _ fs => fs
  | Outcome.panicked _ fs => fs

/-- Whether the handler returned normally. -/
def Outcome.isClosed : Outcome → Bool
  | Outcome.closed _ _ => true
  | Outcome.panicked _ _ => false

/-- Lines 61-142, after the request line has been scanned. `gzip` is the
compression done by `compress/gzip`. The routes that use a Scanner see the lines
of the whole remaining stream. -/
def handleConnection (gzip : Str → Str) (fs : FS) (directory : Str)
    (requestMethod requestPath requestVersion : Str) (conn : List Str) : Outcome :=
  if requestVersion ≠ "HTTP/1.1".toList then
    Outcome.closed (httpResponse 400 "Bad Request".toList [] []) fs
  else if requestMethod ≠ "GET".toList ∧ requestMethod ≠ "POST".toList then
    Outcome.closed (httpResponse 501 "Not Implemented".toList [] []) fs
  else if requestPath = "/".toList then
    Outcome.closed (httpResponse 200 "OK".toList [] []) fs
  else if requestPath = "/user-agent".toList then
    Outcome.closed (httpResponse 200 "OK".toList [] (userAgentScan (scanLines conn.flatten))) fs
  else if HasPrefix requestPath "/echo/".toList then
    let responseBody := requestPath.drop 6
    let acceptEncodings := acceptEncodingsScan [] (scanLines conn.flatten)
    if wantsGzip acceptEncodings then
      Outcome.closed
        (httpResponse 200 "OK".toList "Content-Encoding: gzip\r\n".toList (gzip responseBody)) fs
    else Outcome.closed (httpResponse 200 "OK".toList [] responseBody) fs
  else if HasPrefix requestPath "/files/".toList then
    let fullFilePath := Join directory (requestPath.drop 7)
    if requestMethod = "GET".toList then
      match handleFileRequest fs fullFilePath with
      | (written, statusCode, statusMessage) =>
        if statusCode = 200 then Outcome.closed written fs
        else Outcome.closed (written ++ httpResponse statusCode statusMessage [] []) fs
    else if requestMethod = "POST".toList then
      match handleFileUpload fs conn fullFilePath with
      | UploadResult.returned statusCode statusMessage fs1 =>
        Outcome.closed (httpResponse statusCode statusMessage [] []) fs1
      | UploadResult.panicked fs1 => Outcome.panicked [] fs1
    else Outcome.closed (httpResponse 200 "OK".toList [] []) fs
  else Outcome.closed (httpResponse 404 "Not Found".toList [] []) fs

/-! ## Results of `handleFileUpload` -/

/-- The status returned by `handleFileUpload`, if it returns. -/
def UploadResult.status : UploadResult → Option (Nat × Str)
  | UploadResult.returned statusCode statusMessage _ => some (statusCode, statusMessage)
  | UploadResult.panicked _ => none

/-- The file system after `handleFileUpload`. -/
def UploadResult.fs : UploadResult → FS
  | UploadResult.returned _ _ fs => fs
  | UploadResult.panicked fs => fs

/-! ## Reading a response as a client does

These definitions do not come from the source: they describe how the written
bytes are read back, so that statements about the header fields and the body are
statements about the bytes on the connection. -/

/-- Reading a response as a client does: the header block that precedes the
first blank line (CR LF CR LF) and the bytes that follow that blank line. -/
def splitAtBlankLine : Str → Option (Str × Str)
  | [] => none
  | c :: t =>
    if "\r\n\r\n".toList.isPrefixOf (c :: t) then some ([], t.drop 3)
    else match splitAtBlankLine t with
      | none => none
      | some (hdr, rest) => some (c :: hdr, rest)

/-- The lines of a header block. -/
def headerLines (hdr : Str) : List Str := (Split '\n' hdr).map dropCR

/-- The value of the first header line that starts with `name`. -/
def headerValue (name hdr : Str) : Option Str :=
  match (headerLines hdr).find? (fun line => HasPrefix line name) with
  | none => none
  | some line => some (line.drop name.length)

/-- The number declared in the `Content-Length` header of a header block. -/
def declaredContentLength (hdr : Str) : Option Nat :=
  match headerValue "Content-Length: ".toList hdr with
  | none => none
  | some v => if v ≠ [] ∧ v.all Char.isDigit = true then some (digitsValue v) else none

/-- What a client reads from the written bytes `w`: a header block that declares
the content type and the content length `n`, a blank line, and then `after`. -/
def Observed (w contentType : Str) (n : Nat) (after : Str) : Prop :=
  ∃ hdr, splitAtBlankLine w = some (hdr, after) ∧ declaredContentLength hdr = some n ∧
    headerValue "Content-Type: ".toList hdr = some contentType

/-- The shapes of what a handler leaves on the connection: nothing at all after a
panic; a `text/plain` response whose declared length is that of the body, the
body being followed by CR LF; an `application/octet-stream` response whose
declared length is the number of bytes after the blank line. -/
def Framed (out : Outcome) : Prop :=
  (out.isClosed = false ∧ out.written = []) ∨
  (∃ body : Str, Observed out.written "text/plain".toList body.length (body ++ "\r\n".toList)) ∨
  (∃ body : Str, Observed out.written "application/octet-stream".toList body.length body)

/-- Number of places at which `pat` occurs in `s`. -/
def countOccurrences (pat : Str) : Str → Nat
  | [] => 0
  | c :: t => (if pat.isPrefixOf (c :: t) then 1 else 0) + countOccurrences pat t

/-! ## The header block of a request, as the specification names it -/

/-- The lines of a request stream, cut as `bufio.ScanLines` cuts them but
without any bound on their length:
`cur` is the part of the current line already seen. -/
def linesOfFrom : Str → Str → List Str
  | cur, [] => if cur = [] then [] else [dropCR cur]
  | cur, c :: t => if c = '\n' then dropCR cur :: linesOfFrom [] t else linesOfFrom (cur ++ [c]) t

/-- Whether a line is not the blank line. -/
def notBlank (l : Str) : Bool := !l.isEmpty

/-- The header block of a request in the words of the specification: the lines
before the first blank line. -/
def headerBlockLines (stream : Str) : List Str :=
  (linesOfFrom [] stream).takeWhile notBlank

/-- The values of the `Accept-Encoding: ` lines of a header block. -/
def acceptEncodingValues (block : List Str) : List Str :=
  (block.filter (fun l => HasPrefix l "Accept-Encoding: ".toList)).map (fun l => l.drop 17)

/-- The elements of a request path suffix that name something: those that are
neither empty nor `.`. -/
def realElems (suffix : Str) : List Str :=
  (Split '/' suffix).filter (fun e => decide (e ≠ [] ∧ e ≠ ['.']))

/-! ## Shapes used in the proofs -/

/-- The status line without its CR LF. -/
def statusLine (statusCode : Nat) (statusMessage : Str) : Str :=
  "HTTP/1.1 ".toList ++ itoa statusCode ++ " ".toList ++ statusMessage

/-- A header block: the given lines, each ended by CR LF, and a last line
`Content-Length: n` that lacks its CR LF. -/
def headBlock (lines : List Str) (n : Nat) : Str :=
  (lines.map (fun l => l ++ "\r\n".toList)).flatten ++ ("Content-Length: ".toList ++ itoa n)

/-! ## Sample environments -/

/-- A serving directory `/srv/www` that holds nothing; `/etc/passwd` lies outside it. -/
def sampleFS : FS where
  stat := fun p =>
    if p = "/srv/www".toList then StatResult.dir
    else if p = "/etc/passwd".toList then StatResult.file "root".toList
    else StatResult.notExist
  openFails := fun _ => false
  read := fun _ => ReadOutcome.delivers defaultBufSize
  createFails := fun _ => false

/-- The serving directory holds `a.txt` with content `hello`, which can be read. -/
def oneFileFS : FS where
  stat := fun p =>
    if p = "/srv/www".toList then StatResult.dir
    else if p = "/srv/www/a.txt".toList then StatResult.file "hello".toList
    else StatResult.notExist
  openFails := fun _ => false
  read := fun _ => ReadOutcome.delivers defaultBufSize
  createFails := fun _ => false

/-- The serving directory holds `a.txt` with content `hello`; reading it fails. -/
def brokenReadFS : FS where
  stat := fun p =>
    if p = "/srv/www".toList then StatResult.dir
    else if p = "/srv/www/a.txt".toList then StatResult.file "hello".toList
    else StatResult.notExist
  openFails := fun _ => false
  read := fun _ => ReadOutcome.fails
  createFails := fun _ => false

/-- A stand-in for the compression in examples: the text behind a two-byte mark. -/
def markGzip (s : Str) : Str := 'g' :: 'z' :: s

/-- A request stream whose first header line is longer than the Scanner buffer. -/
def longLineStream : Str :=
  List.replicate maxScanTokenSize 'a' ++ "\r\nAccept-Encoding: gzip\r\n\r\n".toList

/-- The serving directory holds `a.txt` with content `hello`; one `Read` of it
delivers two bytes. -/
def shortReadFS : FS where
  stat := fun p =>
    if p = "/srv/www".toList then StatResult.dir
    else if p = "/srv/www/a.txt".toList then StatResult.file "hello".toList
    else StatResult.notExist
  openFails := fun _ => false
  read := fun _ => ReadOutcome.delivers 2
  createFails := fun _ => false

/-! # Theorems -/

/-! ## C1: dispatch order -/

/-- C1: the status is chosen by the first matching rule: a version other than
`HTTP/1.1` gives 400 Bad Request with empty body and no extra header whatever the
method and path; otherwise a method other than GET and POST gives 501 Not
Implemented whatever the path; otherwise the path `/` gives 200 OK with empty
body; otherwise a path that is not `/user-agent` and starts with neither `/echo/`
nor `/files/` gives 404 Not Found. -/
theorem C1_first_matching_rule (gzip : Str → Str) (fs : FS)
    (directory requestMethod requestPath requestVersion : Str) (conn : List Str) :
    (requestVersion ≠ "HTTP/1.1".toList →
      handleConnection gzip fs directory requestMethod requestPath requestVersion conn
        = Outcome.closed (httpResponse 400 "Bad Request".toList [] []) fs) ∧
    (requestVersion = "HTTP/1.1".toList →
      requestMethod ≠ "GET".toList → requestMethod ≠ "POST".toList →
      handleConnection gzip fs directory requestMethod requestPath requestVersion conn
        = Outcome.closed (httpResponse 501 "Not Implemented".toList [] []) fs) ∧
    (requestVersion = "HTTP/1.1".toList →
      requestMethod = "GET".toList ∨ requestMethod = "POST".toList →
      requestPath = "/".toList →
      handleConnection gzip fs directory requestMethod requestPath requestVersion conn
        = Outcome.closed (httpResponse 200 "OK".toList [] []) fs) ∧
    (requestVersion = "HTTP/1.1".toList →
      requestMethod = "GET".toList ∨ requestMethod = "POST".toList →
      requestPath ≠ "/".toList → requestPath ≠ "/user-agent".toList →
      HasPrefix requestPath "/echo/".toList = false →
      HasPrefix requestPath "/files/".toList = false →
      handleConnection gzip fs directory requestMethod requestPath requestVersion conn
        = Outcome.closed (httpResponse 404 "Not Found".toList [] []) fs) := by
  refine ⟨?_, ?_, ?_, ?_⟩
  · intro hv
    simp only [handleConnection, if_pos hv]
  · intro hv hg hp
    simp only [handleConnection]
    rw [if_neg (not_not.mpr hv), if_pos ⟨hg, hp⟩]
  · intro hv hm hpath
    have hm2 : ¬ (requestMethod ≠ "GET".toList ∧ requestMethod ≠ "POST".toList) := by
      rcases hm with h | h
      · exact fun hh => hh.1 h
      · exact fun hh => hh.2 h
    simp only [handleConnection]
    rw [if_neg (not_not.mpr hv), if_neg hm2, if_pos hpath]
  · intro hv hm h1 h2 h3 h4
    have hm2 : ¬ (requestMethod ≠ "GET".toList ∧ requestMethod ≠ "POST".toList) := by
      rcases hm with h | h
      · exact fun hh => hh.1 h
      · exact fun hh => hh.2 h
    simp only [handleConnection]
    rw [if_neg (not_not.mpr hv), if_neg hm2, if_neg h1, if_neg h2,
      if_neg (by rw [h3]; decide), if_neg (by rw [h4]; decide)]

/-- C1 at five requests: `GET / HTTP/1.0`, `PUT / HTTP/1.1`, `GET / HTTP/1.1`,
`POST /nowhere HTTP/1.1` and a request line without version, with the bytes each
one is answered with. -/
theorem C1_first_matching_rule_witness :
    (handleConnection id sampleFS "/srv/www".toList "GET".toList "/".toList "HTTP/1.0".toList []).written
        = "HTTP/1.1 400 Bad Request\r\nContent-Type: text/plain\r\nContent-Length: 0\r\n\r\n\r\n".toList ∧
    (handleConnection id sampleFS "/srv/www".toList "PUT".toList "/".toList "HTTP/1.1".toList []).written
        = "HTTP/1.1 501 Not Implemented\r\nContent-Type: text/plain\r\nContent-Length: 0\r\n\r\n\r\n".toList ∧
    (handleConnection id sampleFS "/srv/www".toList "GET".toList "/".toList "HTTP/1.1".toList []).written
        = "HTTP/1.1 200 OK\r\nContent-Type: text/plain\r\nContent-Length: 0\r\n\r\n\r\n".toList ∧
    (handleConnection id sampleFS "/srv/www".toList "POST".toList "/nowhere".toList "HTTP/1.1".toList []).written
        = "HTTP/1.1 404 Not Found\r\nContent-Type: text/plain\r\nContent-Length: 0\r\n\r\n\r\n".toList ∧
    (handleConnection id sampleFS "/srv/www".toList "DELETE".toList "/echo/x".toList [] []).written
        = "HTTP/1.1 400 Bad Request\r\nContent-Type: text/plain\r\nContent-Length: 0\r\n\r\n\r\n".toList := by
  refine ⟨?_, ?_, ?_, ?_, ?_⟩
  · rw [(C1_first_matching_rule id sampleFS "/srv/www".toList "GET".toList "/".toList
      "HTTP/1.0".toList []).1 (by decide)]
    decide
  · rw [(C1_first_matching_rule id sampleFS "/srv/www".toList "PUT".toList "/".toList
      "HTTP/1.1".toList []).2.1 rfl (by decide) (by decide)]
    decide
  · rw [(C1_first_matching_rule id sampleFS "/srv/www".toList "GET".toList "/".toList
      "HTTP/1.1".toList []).2.2.1 rfl (Or.inl rfl) rfl]
    decide
  · rw [(C1_first_matching_rule id sampleFS "/srv/www".toList "POST".toList "/nowhere".toList
      "HTTP/1.1".toList []).2.2.2 rfl (Or.inr rfl) (by decide) (by decide) (by decide) (by decide)]
    decide
  · rw [(C1_first_matching_rule id sampleFS "/srv/www".toList "DELETE".toList "/echo/x".toList
      [] []).1 (by decide)]
    decide

/-! ## C2: Content-Length and the bytes after the blank line -/

theorem digitChar_isDigit (k : Nat) (hk : k < 10) : (Nat.digitChar k).isDigit = true := by
  interval_cases k <;> decide

theorem digitChar_value (k : Nat) (hk : k < 10) : (Nat.digitChar k).toNat - 48 = k := by
  interval_cases k <;> decide

theorem toDigitsCore_isDigit (fuel : Nat) : ∀ (n : Nat) (ds : Str),
    (∀ c ∈ ds, c.isDigit = true) → ∀ c ∈ Nat.toDigitsCore 10 fuel n ds, c.isDigit = true := by
  induction fuel with
  | zero => intro n ds h; simpa [Nat.toDigitsCore] using h
  | succ fuel ih =>
    intro n ds h
    have hd : ∀ c ∈ Nat.digitChar (n % 10) :: ds, c.isDigit = true := by
      intro c hc
      rcases List.mem_cons.mp hc with rfl | hc
      · exact digitChar_isDigit _ (Nat.mod_lt _ (by norm_num))
      · exact h c hc
    simp only [Nat.toDigitsCore]
    split_ifs
    · exact hd
    · exact ih _ _ hd

theorem itoa_isDigit (n : Nat) : ∀ c ∈ itoa n, c.isDigit = true :=
  toDigitsCore_isDigit _ _ _ (by simp)

theorem toDigitsCore_ne_nil (fuel : Nat) : ∀ (n : Nat) (ds : Str),
    Nat.toDigitsCore 10 (fuel + 1) n ds ≠ [] := by
  induction fuel with
  | zero => intro n ds; simp [Nat.toDigitsCore]
  | succ fuel ih =>
    intro n ds
    rw [Nat.toDigitsCore]
    split_ifs
    · simp
    · exact ih _ _

theorem itoa_ne_nil (n : Nat) : itoa n ≠ [] := toDigitsCore_ne_nil _ _ _

theorem digitsValue_toDigitsCore (fuel : Nat) : ∀ (n : Nat) (ds : Str), n < fuel →
    (Nat.toDigitsCore 10 fuel n ds).foldl (fun acc c => 10 * acc + (c.toNat - 48)) 0
      = ds.foldl (fun acc c => 10 * acc + (c.toNat - 48)) n := by
  induction fuel with
  | zero => intro n ds h; omega
  | succ fuel ih =>
    intro n ds h
    simp only [Nat.toDigitsCore]
    split_ifs with h0
    · have hn : n % 10 = n := by omega
      have hv := digitChar_value _ (Nat.mod_lt n (by norm_num : 0 < 10))
      rw [hn] at hv
      simp only [List.foldl_cons, hn, hv, Nat.mul_zero, Nat.zero_add]
    · rw [ih (n / 10) _ (by omega)]
      simp only [List.foldl_cons, digitChar_value _ (Nat.mod_lt n (by norm_num : 0 < 10))]
      congr 1
      omega

theorem digitsValue_itoa (n : Nat) : digitsValue (itoa n) = n := by
  unfold digitsValue itoa Nat.toDigits
  rw [digitsValue_toDigitsCore _ _ _ (Nat.lt_succ_self n)]
  rfl

theorem isDigit_ne_cr (c : Char) (h : c.isDigit = true) : c ≠ '\r' := by
  rintro rfl; exact absurd h (by decide)

theorem isDigit_ne_lf (c : Char) (h : c.isDigit = true) : c ≠ '\n' := by
  rintro rfl; exact absurd h (by decide)

theorem splitAtBlankLine_skip (l t hdr rest : Str) (hl : '\r' ∉ l)
    (h : splitAtBlankLine t = some (hdr, rest)) :
    splitAtBlankLine (l ++ t) = some (l ++ hdr, rest) := by
  induction l with
  | nil => simpa using h
  | cons c l ih =>
    have hc : c ≠ '\r' := fun hc => hl (by simp [hc])
    have hl2 : '\r' ∉ l := fun hm => hl (List.mem_cons_of_mem _ hm)
    simp [splitAtBlankLine, List.isPrefixOf, Ne.symm hc, ih hl2]

theorem splitAtBlankLine_crlf (c : Char) (t hdr rest : Str) (hc : c ≠ '\r')
    (h : splitAtBlankLine (c :: t) = some (hdr, rest)) :
    splitAtBlankLine ('\r' :: '\n' :: c :: t) = some ('\r' :: '\n' :: hdr, rest) := by
  simp [splitAtBlankLine, List.isPrefixOf, Ne.symm hc] at h ⊢
  simp [h]

theorem splitAtBlankLine_blank (rest : Str) :
    splitAtBlankLine ('\r' :: '\n' :: '\r' :: '\n' :: rest) = some ([], rest) := by
  simp [splitAtBlankLine, List.isPrefixOf]

theorem headBlock_cons (l : Str) (ls : List Str) (n : Nat) :
    headBlock (l :: ls) n = l ++ ('\r' :: '\n' :: headBlock ls n) := by
  simp [headBlock]

theorem headBlock_head (ls : List Str) (n : Nat) (h : ∀ l ∈ ls, l ≠ [] ∧ '\r' ∉ l) :
    ∃ c t, headBlock ls n = c :: t ∧ c ≠ '\r' := by
  cases ls with
  | nil => exact ⟨'C', _, by simp [headBlock]; rfl, by decide⟩
  | cons l ls =>
    obtain ⟨hne, hcr⟩ := h l (by simp)
    cases l with
    | nil => exact absurd rfl hne
    | cons c l =>
      exact ⟨c, _, by rw [headBlock_cons]; rfl, fun hc => hcr (by simp [hc])⟩

theorem splitAtBlankLine_headBlock (n : Nat) (rest : Str) (ls : List Str)
    (h : ∀ l ∈ ls, l ≠ [] ∧ '\r' ∉ l) :
    splitAtBlankLine (headBlock ls n ++ ('\r' :: '\n' :: '\r' :: '\n' :: rest))
      = some (headBlock ls n, rest) := by
  induction ls with
  | nil =>
    have hcr : '\r' ∉ headBlock [] n := by
      intro hm
      simp only [headBlock, List.map_nil, List.flatten_nil, List.nil_append, List.mem_append] at hm
      rcases hm with hm | hm
      · exact absurd hm (by decide)
      · exact isDigit_ne_cr _ (itoa_isDigit n _ hm) rfl
    have := splitAtBlankLine_skip (headBlock [] n) _ [] rest hcr (splitAtBlankLine_blank rest)
    simpa using this
  | cons l ls ih =>
    have hls : ∀ l ∈ ls, l ≠ [] ∧ '\r' ∉ l := fun x hx => h x (List.mem_cons_of_mem _ hx)
    obtain ⟨c, t, hct, hc⟩ := headBlock_head ls n hls
    have ih2 := ih hls
    rw [hct] at ih2
    have h2 := splitAtBlankLine_crlf c _ _ _ hc ih2
    have h3 := splitAtBlankLine_skip l _ _ _ (h l (by simp)).2 h2
    rw [headBlock_cons, hct]
    simpa using h3

theorem Split_of_not_mem (sep : Char) (l : Str) (h : sep ∉ l) : Split sep l = [l] := by
  induction l with
  | nil => rfl
  | cons c l ih =>
    have hc : c ≠ sep := fun hc => h (by simp [hc])
    have hl : sep ∉ l := fun hm => h (List.mem_cons_of_mem _ hm)
    simp [Split, hc, ih hl]

theorem Split_append_sep (sep : Char) (l t : Str) (h : sep ∉ l) :
    Split sep (l ++ sep :: t) = l :: Split sep t := by
  induction l with
  | nil => simp [Split]
  | cons c l ih =>
    have hc : c ≠ sep := fun hc => h (by simp [hc])
    have hl : sep ∉ l := fun hm => h (List.mem_cons_of_mem _ hm)
    simp [Split, hc, ih hl]

theorem dropCR_append_cr (l : Str) : dropCR (l ++ ['\r']) = l := by
  simp [dropCR]

theorem dropCR_of_last (l : Str) (h : l.getLast? ≠ some '\r') : dropCR l = l := by
  simp [dropCR, h]

theorem contentLengthLine_last (n : Nat) :
    ("Content-Length: ".toList ++ itoa n).getLast? ≠ some '\r' := by
  intro h
  have hm : '\r' ∈ "Content-Length: ".toList ++ itoa n := List.mem_of_getLast?_eq_some h
  rcases List.mem_append.mp hm with hm | hm
  · exact absurd hm (by decide)
  · exact isDigit_ne_cr _ (itoa_isDigit n _ hm) rfl

theorem headerLines_headBlock (n : Nat) (ls : List Str) (h : ∀ l ∈ ls, '\n' ∉ l) :
    headerLines (headBlock ls n) = ls ++ ["Content-Length: ".toList ++ itoa n] := by
  induction ls with
  | nil =>
    have hlf : '\n' ∉ headBlock [] n := by
      intro hm
      simp only [headBlock, List.map_nil, List.flatten_nil, List.nil_append, List.mem_append] at hm
      rcases hm with hm | hm
      · exact absurd hm (by decide)
      · exact isDigit_ne_lf _ (itoa_isDigit n _ hm) rfl
    unfold headerLines
    rw [Split_of_not_mem _ _ hlf]
    simp only [List.map_cons, List.map_nil, List.nil_append]
    rw [show headBlock [] n = "Content-Length: ".toList ++ itoa n by simp [headBlock],
      dropCR_of_last _ (contentLengthLine_last n)]
  | cons l ls ih =>
    have hls : ∀ l ∈ ls, '\n' ∉ l := fun x hx => h x (List.mem_cons_of_mem _ hx)
    have hl : '\n' ∉ l ++ ['\r'] := by
      intro hm
      rcases List.mem_append.mp hm with hm | hm
      · exact h l (by simp) hm
      · exact absurd hm (by decide)
    have ih2 := ih hls
    unfold headerLines at ih2 ⊢
    rw [headBlock_cons, show l ++ ('\r' :: '\n' :: headBlock ls n)
      = (l ++ ['\r']) ++ '\n' :: headBlock ls n by simp, Split_append_sep _ _ _ hl]
    simp only [List.map_cons, dropCR_append_cr, ih2, List.cons_append]

theorem statusLine_clean (code : Nat) (msg : Str) (hcr : '\r' ∉ msg) (hlf : '\n' ∉ msg) :
    statusLine code msg ≠ [] ∧ '\r' ∉ statusLine code msg ∧ '\n' ∉ statusLine code msg := by
  refine ⟨by simp [statusLine], ?_, ?_⟩
  · intro hm
    simp only [statusLine, List.mem_append] at hm
    rcases hm with ((hm | hm) | hm) | hm
    · exact absurd hm (by decide)
    · exact isDigit_ne_cr _ (itoa_isDigit code _ hm) rfl
    · exact absurd hm (by decide)
    · exact hcr hm
  · intro hm
    simp only [statusLine, List.mem_append] at hm
    rcases hm with ((hm | hm) | hm) | hm
    · exact absurd hm (by decide)
    · exact isDigit_ne_lf _ (itoa_isDigit code _ hm) rfl
    · exact absurd hm (by decide)
    · exact hlf hm

theorem declared_headBlock (n : Nat) (ls : List Str) (hlf : ∀ l ∈ ls, '\n' ∉ l)
    (hcl : ∀ l ∈ ls, HasPrefix l "Content-Length: ".toList = false) :
    declaredContentLength (headBlock ls n) = some n := by
  have hfind : (ls ++ ["Content-Length: ".toList ++ itoa n]).find?
      (fun line => HasPrefix line "Content-Length: ".toList)
      = some ("Content-Length: ".toList ++ itoa n) := by
    induction ls with
    | nil => simp [HasPrefix, List.isPrefixOf]
    | cons l ls ih =>
      have := hcl l (by simp)
      rw [List.cons_append, List.find?_cons, this]
      exact ih (fun x hx => hlf x (List.mem_cons_of_mem _ hx))
        (fun x hx => hcl x (List.mem_cons_of_mem _ hx))
  unfold declaredContentLength headerValue
  rw [headerLines_headBlock n ls hlf, hfind]
  have hd : (itoa n).all Char.isDigit = true := List.all_eq_true.mpr (itoa_isDigit n)
  simp [itoa_ne_nil, hd, digitsValue_itoa]

theorem observed_headBlock (n : Nat) (rest contentType : Str) (ls : List Str)
    (hls : ∀ l ∈ ls, l ≠ [] ∧ '\r' ∉ l ∧ '\n' ∉ l ∧
      HasPrefix l "Content-Length: ".toList = false)
    (hct : (ls ++ ["Content-Length: ".toList ++ itoa n]).find?
        (fun line => HasPrefix line "Content-Type: ".toList)
      = some ("Content-Type: ".toList ++ contentType)) :
    Observed (headBlock ls n ++ ('\r' :: '\n' :: '\r' :: '\n' :: rest)) contentType n rest := by
  refine ⟨headBlock ls n, ?_, ?_, ?_⟩
  · exact splitAtBlankLine_headBlock n rest ls (fun l hl => ⟨(hls l hl).1, (hls l hl).2.1⟩)
  · exact declared_headBlock n ls (fun l hl => (hls l hl).2.2.1) (fun l hl => (hls l hl).2.2.2)
  · unfold headerValue
    rw [headerLines_headBlock n ls (fun l hl => (hls l hl).2.2.1), hct]
    simp

theorem statusLine_head (code : Nat) (msg : Str) (hcr : '\r' ∉ msg) (hlf : '\n' ∉ msg) :
    statusLine code msg ≠ [] ∧ '\r' ∉ statusLine code msg ∧ '\n' ∉ statusLine code msg ∧
      HasPrefix (statusLine code msg) "Content-Length: ".toList = false := by
  obtain ⟨h1, h2, h3⟩ := statusLine_clean code msg hcr hlf
  exact ⟨h1, h2, h3, by simp [statusLine, HasPrefix, List.isPrefixOf]⟩

theorem observed_httpResponse (code : Nat) (msg extra body : Str)
    (hcr : '\r' ∉ msg) (hlf : '\n' ∉ msg)
    (hextra : extra = [] ∨ extra = "Content-Encoding: gzip\r\n".toList) :
    Observed (httpResponse code msg extra body) "text/plain".toList body.length
      (body ++ "\r\n".toList) := by
  have hs := statusLine_head code msg hcr hlf
  have hp2 : HasPrefix (statusLine code msg) "Content-Type: ".toList = false := by
    simp [statusLine, HasPrefix, List.isPrefixOf]
  rcases hextra with rfl | rfl
  · have hw : httpResponse code msg [] body
        = headBlock [statusLine code msg, "Content-Type: text/plain".toList] body.length
          ++ ('\r' :: '\n' :: '\r' :: '\n' :: (body ++ "\r\n".toList)) := by
      simp [httpResponse, headBlock, statusLine]
    rw [hw]
    apply observed_headBlock
    · intro l hl
      simp only [List.mem_cons, List.mem_singleton, List.not_mem_nil, or_false] at hl
      rcases hl with rfl | rfl
      · exact hs
      · decide
    · rw [List.cons_append, List.find?_cons, hp2]
      rfl
  · have hw : httpResponse code msg "Content-Encoding: gzip\r\n".toList body
        = headBlock [statusLine code msg, "Content-Encoding: gzip".toList,
            "Content-Type: text/plain".toList] body.length
          ++ ('\r' :: '\n' :: '\r' :: '\n' :: (body ++ "\r\n".toList)) := by
      simp [httpResponse, headBlock, statusLine]
    rw [hw]
    apply observed_headBlock
    · intro l hl
      simp only [List.mem_cons, List.mem_singleton, List.not_mem_nil, or_false] at hl
      rcases hl with rfl | rfl | rfl
      · exact hs
      · decide
      · decide
    · rw [List.cons_append, List.find?_cons, hp2]
      rfl

theorem observed_file (size : Nat) (data : Str) :
    Observed (httpHeader 200 "OK".toList size ++ data) "application/octet-stream".toList
      size data := by
  have hs := statusLine_head 200 "OK".toList (by decide) (by decide)
  have hp2 : HasPrefix (statusLine 200 "OK".toList) "Content-Type: ".toList = false := by decide
  have hw : httpHeader 200 "OK".toList size ++ data
      = headBlock [statusLine 200 "OK".toList, "Content-Type: application/octet-stream".toList]
          size ++ ('\r' :: '\n' :: '\r' :: '\n' :: data) := by
    simp [httpHeader, headBlock, statusLine]
  rw [hw]
  apply observed_headBlock
  · intro l hl
    simp only [List.mem_cons, List.mem_singleton, List.not_mem_nil, or_false] at hl
    rcases hl with rfl | rfl
    · exact hs
    · decide
  · rw [List.cons_append, List.find?_cons, hp2]
    rfl

theorem fileRead_length (F got : Str) (o : ReadOutcome) (h : fileRead F o = some got) :
    got.length ≤ F.length := by
  cases o with
  | fails => simp [fileRead] at h
  | delivers k =>
    unfold fileRead at h
    simp only at h
    split_ifs at h with h1 h2
    · cases h; simp
    · cases h; simp [List.length_take]

theorem handleFileRequest_cases (fs : FS) (path : Str)
    (hread : ∀ q F, fs.stat q = StatResult.file F → fileRead F (fs.read q) ≠ none) :
    handleFileRequest fs path = ([], 404, "Not Found".toList) ∨
    handleFileRequest fs path = ([], 500, "Internal Server Error".toList) ∨
    ∃ data : Str, handleFileRequest fs path
      = (httpHeader 200 "OK".toList data.length ++ data, 200, "OK".toList) := by
  unfold handleFileRequest
  cases hs : fs.stat path with
  | notExist => simp
  | statError => simp
  | dir => simp
  | file content =>
    simp only
    by_cases ho : fs.openFails path = true
    · simp [ho]
    · cases hr : fileRead content (fs.read path) with
      | none => exact absurd hr (hread path content hs)
      | some got =>
        right; right
        refine ⟨got ++ List.replicate (content.length - got.length) (Char.ofNat 0), ?_⟩
        have hlen := fileRead_length content got _ hr
        have : (got ++ List.replicate (content.length - got.length) (Char.ofNat 0)).length
            = content.length := by
          simp; omega
        simp [ho, this]

theorem handleFileUpload_cases (fs : FS) (conn : List Str) (path : Str) :
    (∃ fs1, handleFileUpload fs conn path
      = UploadResult.returned 500 "Internal Server Error".toList fs1) ∨
    (∃ fs1, handleFileUpload fs conn path = UploadResult.returned 201 "Created".toList fs1) ∨
    (∃ fs1, handleFileUpload fs conn path = UploadResult.panicked fs1) := by
  unfold handleFileUpload
  split_ifs with h1
  · exact Or.inl ⟨_, rfl⟩
  · rcases hu : uploadHeaders conn with ⟨contentLength, buf, conn1⟩
    simp only
    split_ifs with h2
    · exact Or.inr (Or.inr ⟨_, rfl⟩)
    · cases readerRead buf conn1 contentLength.toNat with
      | none => exact Or.inl ⟨_, rfl⟩
      | some data => exact Or.inr (Or.inl ⟨_, rfl⟩)

theorem framed_generated (code : Nat) (msg extra body : Str) (fs : FS)
    (hcr : '\r' ∉ msg) (hlf : '\n' ∉ msg)
    (hextra : extra = [] ∨ extra = "Content-Encoding: gzip\r\n".toList) :
    Framed (Outcome.closed (httpResponse code msg extra body) fs) :=
  Or.inr (Or.inl ⟨body, observed_httpResponse code msg extra body hcr hlf hextra⟩)

theorem handleConnection_framed (gzip : Str → Str) (fs : FS)
    (directory requestMethod requestPath requestVersion : Str) (conn : List Str)
    (hread : ∀ q F, fs.stat q = StatResult.file F → fileRead F (fs.read q) ≠ none) :
    Framed (handleConnection gzip fs directory requestMethod requestPath requestVersion conn) := by
  unfold handleConnection
  by_cases h1 : requestVersion ≠ "HTTP/1.1".toList
  · rw [if_pos h1]
    exact framed_generated _ _ _ _ _ (by decide) (by decide) (Or.inl rfl)
  rw [if_neg h1]
  by_cases h2 : requestMethod ≠ "GET".toList ∧ requestMethod ≠ "POST".toList
  · rw [if_pos h2]
    exact framed_generated _ _ _ _ _ (by decide) (by decide) (Or.inl rfl)
  rw [if_neg h2]
  by_cases h3 : requestPath = "/".toList
  · rw [if_pos h3]
    exact framed_generated _ _ _ _ _ (by decide) (by decide) (Or.inl rfl)
  rw [if_neg h3]
  by_cases h4 : requestPath = "/user-agent".toList
  · rw [if_pos h4]
    exact framed_generated _ _ _ _ _ (by decide) (by decide) (Or.inl rfl)
  rw [if_neg h4]
  by_cases h5 : HasPrefix requestPath "/echo/".toList = true
  · rw [if_pos h5]
    simp only []
    by_cases h6 : wantsGzip (acceptEncodingsScan [] (scanLines conn.flatten)) = true
    · rw [if_pos h6]
      exact framed_generated _ _ _ _ _ (by decide) (by decide) (Or.inr rfl)
    · rw [if_neg h6]
      exact framed_generated _ _ _ _ _ (by decide) (by decide) (Or.inl rfl)
  rw [if_neg h5]
  by_cases h7 : HasPrefix requestPath "/files/".toList = true
  · rw [if_pos h7]
    simp only []
    by_cases h8 : requestMethod = "GET".toList
    · rw [if_pos h8]
      rcases handleFileRequest_cases fs (Join directory (requestPath.drop 7)) hread
        with h | h | ⟨data, h⟩
      · rw [h]
        simp only []
        rw [if_neg (by decide), List.nil_append]
        exact framed_generated _ _ _ _ _ (by decide) (by decide) (Or.inl rfl)
      · rw [h]
        simp only []
        rw [if_neg (by decide), List.nil_append]
        exact framed_generated _ _ _ _ _ (by decide) (by decide) (Or.inl rfl)
      · rw [h]
        simp only [if_true]
        exact Or.inr (Or.inr ⟨data, observed_file data.length data⟩)
    · rw [if_neg h8]
      by_cases h9 : requestMethod = "POST".toList
      · rw [if_pos h9]
        rcases handleFileUpload_cases fs conn (Join directory (requestPath.drop 7))
          with ⟨fs1, h⟩ | ⟨fs1, h⟩ | ⟨fs1, h⟩
        · rw [h]
          exact framed_generated _ _ _ _ _ (by decide) (by decide) (Or.inl rfl)
        · rw [h]
          exact framed_generated _ _ _ _ _ (by decide) (by decide) (Or.inl rfl)
        · rw [h]
          exact Or.inl ⟨rfl, rfl⟩
      · rw [if_neg h9]
        exact framed_generated _ _ _ _ _ (by decide) (by decide) (Or.inl rfl)
  · rw [if_neg h7]
    exact framed_generated _ _ _ _ _ (by decide) (by decide) (Or.inl rfl)

theorem fileRead_delivers (F : Str) (k : Nat) (hk : k ≠ 0) :
    fileRead F (ReadOutcome.delivers k) ≠ none := by
  unfold fileRead
  by_cases hF : F = [] <;> simp [hF, hk]

/-- C2 (amended): for every request on a file system whose file reads succeed,
the handler either panics before anything is written, or writes one `text/plain`
response whose declared Content-Length is the length of the body, the bytes
after the blank line being the body followed by CR LF (two bytes more than
declared), or writes one `application/octet-stream` file response whose declared
Content-Length is the number of bytes written after the blank line. -/
theorem C2_declared_length_is_body_length (gzip : Str → Str) (fs : FS)
    (directory requestMethod requestPath requestVersion : Str) (conn : List Str)
    (hread : ∀ q F, fs.stat q = StatResult.file F → fileRead F (fs.read q) ≠ none) :
    ((handleConnection gzip fs directory requestMethod requestPath requestVersion conn).isClosed
        = false ∧
      (handleConnection gzip fs directory requestMethod requestPath requestVersion conn).written
        = []) ∨
    (∃ hdr body : Str,
      splitAtBlankLine
        (handleConnection gzip fs directory requestMethod requestPath requestVersion conn).written
          = some (hdr, body ++ "\r\n".toList) ∧
      declaredContentLength hdr = some body.length ∧
      headerValue "Content-Type: ".toList hdr = some "text/plain".toList) ∨
    (∃ hdr body : Str,
      splitAtBlankLine
        (handleConnection gzip fs directory requestMethod requestPath requestVersion conn).written
          = some (hdr, body) ∧
      declaredContentLength hdr = some body.length ∧
      headerValue "Content-Type: ".toList hdr = some "application/octet-stream".toList) := by
  rcases handleConnection_framed gzip fs directory requestMethod requestPath requestVersion conn
    hread with h | ⟨body, hdr, h⟩ | ⟨body, hdr, h⟩
  · exact Or.inl h
  · exact Or.inr (Or.inl ⟨hdr, body, h⟩)
  · exact Or.inr (Or.inr ⟨hdr, body, h⟩)

/-- C2 at `GET /files/a.txt` on a directory that holds `a.txt`: every read of the
file system succeeds, and the response has one of the three shapes. -/
theorem C2_declared_length_is_body_length_witness :
    (∀ q F, oneFileFS.stat q = StatResult.file F → fileRead F (oneFileFS.read q) ≠ none) ∧
    (((handleConnection id oneFileFS "/srv/www".toList "GET".toList "/files/a.txt".toList
        "HTTP/1.1".toList []).isClosed = false ∧
      (handleConnection id oneFileFS "/srv/www".toList "GET".toList "/files/a.txt".toList
        "HTTP/1.1".toList []).written = []) ∨
    (∃ hdr body : Str,
      splitAtBlankLine
        (handleConnection id oneFileFS "/srv/www".toList "GET".toList "/files/a.txt".toList
          "HTTP/1.1".toList []).written = some (hdr, body ++ "\r\n".toList) ∧
      declaredContentLength hdr = some body.length ∧
      headerValue "Content-Type: ".toList hdr = some "text/plain".toList) ∨
    (∃ hdr body : Str,
      splitAtBlankLine
        (handleConnection id oneFileFS "/srv/www".toList "GET".toList "/files/a.txt".toList
          "HTTP/1.1".toList []).written = some (hdr, body) ∧
      declaredContentLength hdr = some body.length ∧
      headerValue "Content-Type: ".toList hdr = some "application/octet-stream".toList)) :=
  ⟨fun _ F _ => fileRead_delivers F defaultBufSize (by decide),
    C2_declared_length_is_body_length id oneFileFS "/srv/www".toList "GET".toList
      "/files/a.txt".toList "HTTP/1.1".toList []
      (fun _ F _ => fileRead_delivers F defaultBufSize (by decide))⟩

/-- C2 (counterexample): the response to `GET / HTTP/1.1` declares
`Content-Length: 0`, and two bytes (CR LF) are written after the blank line that
ends its header block. -/
theorem C2_trailing_crlf_not_counted :
    splitAtBlankLine
        (handleConnection id sampleFS "/srv/www".toList "GET".toList "/".toList
          "HTTP/1.1".toList []).written
      = some ("HTTP/1.1 200 OK\r\nContent-Type: text/plain\r\nContent-Length: 0".toList,
          "\r\n".toList) ∧
    declaredContentLength
        "HTTP/1.1 200 OK\r\nContent-Type: text/plain\r\nContent-Length: 0".toList = some 0 ∧
    "\r\n".toList.length = 2 := by
  decide

/-! ## C3: `/echo/` and gzip -/

theorem dropCR_length (cur : Str) : cur.length ≤ (dropCR cur).length + 1 := by
  unfold dropCR
  split_ifs
  · simp; omega
  · omega

theorem notBlank_nil : notBlank [] = false := rfl

theorem notBlank_of_ne (l : Str) (h : l ≠ []) : notBlank l = true := by
  cases l with
  | nil => exact absurd rfl h
  | cons c l => rfl

theorem scan_header_block (t : Str) : ∀ cur : Str,
    (∀ l ∈ (linesOfFrom cur t).takeWhile notBlank, l.length + 1 < maxScanTokenSize) →
    (scanLinesFrom cur t).takeWhile notBlank = (linesOfFrom cur t).takeWhile notBlank := by
  induction t with
  | nil =>
    intro cur h
    by_cases hc : cur = []
    · simp [scanLinesFrom, linesOfFrom, hc]
    · simp only [scanLinesFrom, linesOfFrom, if_neg hc] at h ⊢
      by_cases hd : dropCR cur = []
      · split_ifs <;> simp [hd, List.takeWhile, notBlank_nil]
      · have hnb := notBlank_of_ne _ hd
        have hlen := h (dropCR cur) (by simp [List.takeWhile, hnb])
        have := dropCR_length cur
        rw [if_pos (by omega)]
  | cons c t ih =>
    intro cur h
    by_cases hc : c = '\n'
    · simp only [scanLinesFrom, linesOfFrom, if_pos hc] at h ⊢
      by_cases hd : dropCR cur = []
      · split_ifs <;> simp [hd, List.takeWhile, notBlank_nil]
      · have hnb := notBlank_of_ne _ hd
        have hlen := h (dropCR cur) (by simp [List.takeWhile, hnb])
        have := dropCR_length cur
        rw [if_pos (by omega)]
        have hih := ih [] (fun l hl => h l (by
          simp only [List.takeWhile, hnb]
          exact List.mem_cons_of_mem _ hl))
        simp only [List.takeWhile, hnb]
        rw [hih]
    · simp only [scanLinesFrom, linesOfFrom, if_neg hc] at h ⊢
      exact ih _ h

theorem acceptEncodingsScan_takeWhile (lines : List Str) : ∀ acc : Str,
    acceptEncodingsScan acc lines = acceptEncodingsScan acc (lines.takeWhile notBlank) := by
  induction lines with
  | nil => intro acc; rfl
  | cons l lines ih =>
    intro acc
    by_cases hl : l = []
    · subst hl
      simp [acceptEncodingsScan, HasPrefix, List.isPrefixOf, List.takeWhile, notBlank_nil]
    · simp only [List.takeWhile, notBlank_of_ne l hl, acceptEncodingsScan, hl, if_false]
      split_ifs
      · exact ih _
      · exact ih _

theorem acceptEncodingsScan_block (block : List Str) (hb : ∀ l ∈ block, l ≠ []) : ∀ acc : Str,
    acceptEncodingsScan acc block = ((acceptEncodingValues block).getLast?).getD acc := by
  induction block with
  | nil => intro acc; rfl
  | cons l block ih =>
    intro acc
    have hl : l ≠ [] := hb l (by simp)
    have ih2 := ih (fun x hx => hb x (List.mem_cons_of_mem _ hx))
    simp only [acceptEncodingsScan, hl, if_false]
    by_cases hp : HasPrefix l "Accept-Encoding: ".toList = true
    · rw [if_pos hp, ih2]
      simp only [acceptEncodingValues, List.filter_cons, hp, if_true, List.map_cons]
      cases hv : List.map (fun l => List.drop 17 l)
          (List.filter (fun l => HasPrefix l "Accept-Encoding: ".toList) block) with
      | nil => simp
      | cons x xs =>
        rw [List.getLast?_cons_cons, List.getLast?_eq_getLast _ (List.cons_ne_nil x xs)]
        simp
    · rw [if_neg hp, ih2]
      have hp2 : HasPrefix l "Accept-Encoding: ".toList = false := by simpa using hp
      simp only [acceptEncodingValues, List.filter_cons, hp2, Bool.false_eq_true, if_false]

theorem takeWhile_notBlank_ne (lines : List Str) : ∀ l ∈ lines.takeWhile notBlank, l ≠ [] := by
  intro l hl hnil
  have := List.mem_takeWhile_imp hl
  rw [hnil, notBlank_nil] at this
  exact absurd this (by decide)

/-- The value that the `/echo/` loop holds at its end, for a header block whose
lines fit the Scanner buffer: the value of the last `Accept-Encoding: ` line of
the header block, and the empty string when there is none. -/
theorem acceptEncodings_of_stream (stream : Str)
    (hshort : ∀ l ∈ headerBlockLines stream, l.length + 1 < maxScanTokenSize) :
    acceptEncodingsScan [] (scanLines stream)
      = ((acceptEncodingValues (headerBlockLines stream)).getLast?).getD [] := by
  rw [acceptEncodingsScan_takeWhile, scanLines, scan_header_block stream [] hshort,
    acceptEncodingsScan_block _ (takeWhile_notBlank_ne _)]
  rfl

theorem echo_route (gzip : Str → Str) (fs : FS) (directory requestMethod text : Str)
    (conn : List Str) (hm : requestMethod = "GET".toList ∨ requestMethod = "POST".toList) :
    handleConnection gzip fs directory requestMethod ("/echo/".toList ++ text) "HTTP/1.1".toList conn
      = if wantsGzip (acceptEncodingsScan [] (scanLines conn.flatten)) = true then
          Outcome.closed
            (httpResponse 200 "OK".toList "Content-Encoding: gzip\r\n".toList (gzip text)) fs
        else Outcome.closed (httpResponse 200 "OK".toList [] text) fs := by
  have hm2 : ¬ (requestMethod ≠ "GET".toList ∧ requestMethod ≠ "POST".toList) := by
    rcases hm with h | h
    · exact fun hh => hh.1 h
    · exact fun hh => hh.2 h
  unfold handleConnection
  rw [if_neg (by simp), if_neg hm2, if_neg (by simp), if_neg (by simp),
    if_pos (by simp [HasPrefix, List.isPrefixOf])]
  simp

theorem httpResponse_gzip (body : Str) :
    httpResponse 200 "OK".toList "Content-Encoding: gzip\r\n".toList body
      = ("HTTP/1.1 200 OK\r\nContent-Encoding: gzip\r\nContent-Type: text/plain\r\n"
          ++ "Content-Length: ").toList ++ itoa body.length ++ "\r\n\r\n".toList ++ body
          ++ "\r\n".toList := by
  have h : itoa 200 = "200".toList := by decide
  simp [httpResponse, h]

theorem httpResponse_plain (body : Str) :
    httpResponse 200 "OK".toList [] body
      = "HTTP/1.1 200 OK\r\nContent-Type: text/plain\r\nContent-Length: ".toList
          ++ itoa body.length ++ "\r\n\r\n".toList ++ body ++ "\r\n".toList := by
  have h : itoa 200 = "200".toList := by decide
  simp [httpResponse, h]

theorem wantsGzip_iff (v : Str) :
    wantsGzip v = true ↔ ∃ e ∈ Split ',' v, TrimSpaces e = "gzip".toList := by
  simp [wantsGzip, List.any_eq_true]

/-- C3 (amended): for `GET` or `POST` of `/echo/<text>` with version `HTTP/1.1`,
when every line of the header block fits, with its CR LF, into the 65536 bytes of
the Scanner buffer: if the header block has exactly one `Accept-Encoding: ` line
and some comma separated element of its value `v` is `gzip` once surrounding
spaces are trimmed, the response is 200 OK with `Content-Encoding: gzip`,
`Content-Type: text/plain`, body `gzip(text)` and the compressed length as
Content-Length; if the header block has no such line, or one line none of whose
elements is `gzip`, the response is 200 OK with body `text`, Content-Length
`len(text)` and no Content-Encoding header. -/
theorem C3_echo_negotiation (gzip : Str → Str) (fs : FS)
    (directory requestMethod text v : Str) (conn : List Str)
    (hm : requestMethod = "GET".toList ∨ requestMethod = "POST".toList)
    (hshort : ∀ l ∈ headerBlockLines conn.flatten, l.length + 1 < maxScanTokenSize) :
    (acceptEncodingValues (headerBlockLines conn.flatten) = [v] →
      (∃ e ∈ Split ',' v, TrimSpaces e = "gzip".toList) →
      handleConnection gzip fs directory requestMethod ("/echo/".toList ++ text)
          "HTTP/1.1".toList conn
        = Outcome.closed
            (("HTTP/1.1 200 OK\r\nContent-Encoding: gzip\r\nContent-Type: text/plain\r\n"
                ++ "Content-Length: ").toList ++ itoa (gzip text).length ++ "\r\n\r\n".toList
              ++ gzip text ++ "\r\n".toList) fs) ∧
    (acceptEncodingValues (headerBlockLines conn.flatten) = [] ∨
      (acceptEncodingValues (headerBlockLines conn.flatten) = [v] ∧
        ∀ e ∈ Split ',' v, TrimSpaces e ≠ "gzip".toList) →
      handleConnection gzip fs directory requestMethod ("/echo/".toList ++ text)
          "HTTP/1.1".toList conn
        = Outcome.closed
            ("HTTP/1.1 200 OK\r\nContent-Type: text/plain\r\nContent-Length: ".toList
              ++ itoa text.length ++ "\r\n\r\n".toList ++ text ++ "\r\n".toList) fs) := by
  have hscan := acceptEncodings_of_stream conn.flatten hshort
  refine ⟨?_, ?_⟩
  · intro hv hg
    rw [hv] at hscan
    have hw : wantsGzip (acceptEncodingsScan [] (scanLines conn.flatten)) = true := by
      rw [hscan]
      exact (wantsGzip_iff v).mpr hg
    rw [echo_route gzip fs directory requestMethod text conn hm, if_pos hw, httpResponse_gzip]
  · intro h
    have hw : ¬ wantsGzip (acceptEncodingsScan [] (scanLines conn.flatten)) = true := by
      rcases h with h | ⟨h, hno⟩
      · rw [hscan, h]
        decide
      · rw [hscan, h]
        intro hg
        obtain ⟨e, he, hge⟩ := (wantsGzip_iff v).mp hg
        exact hno e he hge
    rw [echo_route gzip fs directory requestMethod text conn hm, if_neg hw, httpResponse_plain]

/-- C3 at `GET /echo/abc` with the header `Accept-Encoding: identity,  gzip ` and
at `POST /echo/abc` with the header `Accept-Encoding: br`. -/
theorem C3_echo_negotiation_witness :
    (handleConnection markGzip sampleFS "/srv/www".toList "GET".toList "/echo/abc".toList
        "HTTP/1.1".toList ["Accept-Encoding: identity,  gzip \r\n\r\n".toList]).written
      = ("HTTP/1.1 200 OK\r\nContent-Encoding: gzip\r\nContent-Type: text/plain\r\n"
          ++ "Content-Length: 5\r\n\r\ngzabc\r\n").toList ∧
    (handleConnection markGzip sampleFS "/srv/www".toList "POST".toList "/echo/abc".toList
        "HTTP/1.1".toList ["Accept-Encoding: br\r\n\r\n".toList]).written
      = "HTTP/1.1 200 OK\r\nContent-Type: text/plain\r\nContent-Length: 3\r\n\r\nabc\r\n".toList := by
  refine ⟨?_, ?_⟩
  · have h := (C3_echo_negotiation markGzip sampleFS "/srv/www".toList "GET".toList "abc".toList
      "identity,  gzip ".toList ["Accept-Encoding: identity,  gzip \r\n\r\n".toList]
      (Or.inl rfl) (by decide)).1 (by decide) (by decide)
    exact (congrArg Outcome.written h).trans (by decide)
  · have h := (C3_echo_negotiation markGzip sampleFS "/srv/www".toList "POST".toList "abc".toList
      "br".toList ["Accept-Encoding: br\r\n\r\n".toList]
      (Or.inr rfl) (by decide)).2 (Or.inr ⟨by decide, by decide⟩)
    exact (congrArg Outcome.written h).trans (by decide)

theorem linesOfFrom_append (s t : Str) (hs : '\n' ∉ s) : ∀ cur : Str,
    linesOfFrom cur (s ++ t) = linesOfFrom (cur ++ s) t := by
  induction s with
  | nil => intro cur; simp
  | cons c s ih =>
    intro cur
    have hc : c ≠ '\n' := fun hc => hs (by simp [hc])
    have hs2 : '\n' ∉ s := fun hm => hs (List.mem_cons_of_mem _ hm)
    rw [List.cons_append, linesOfFrom, if_neg hc, ih hs2, List.append_assoc]
    rfl

theorem scanLinesFrom_append (s t : Str) (hs : '\n' ∉ s) : ∀ cur : Str,
    scanLinesFrom cur (s ++ t) = scanLinesFrom (cur ++ s) t := by
  induction s with
  | nil => intro cur; simp
  | cons c s ih =>
    intro cur
    have hc : c ≠ '\n' := fun hc => hs (by simp [hc])
    have hs2 : '\n' ∉ s := fun hm => hs (List.mem_cons_of_mem _ hm)
    rw [List.cons_append, scanLinesFrom, if_neg hc, ih hs2, List.append_assoc]
    rfl

theorem longLine_noLF : '\n' ∉ List.replicate maxScanTokenSize 'a' ++ ['\r'] := by
  intro hm
  rcases List.mem_append.mp hm with hm | hm
  · exact absurd (List.eq_of_mem_replicate hm) (by decide)
  · exact absurd hm (by decide)

theorem longLineStream_eq : longLineStream
    = (List.replicate maxScanTokenSize 'a' ++ ['\r'])
        ++ '\n' :: "Accept-Encoding: gzip\r\n\r\n".toList := by
  simp [longLineStream]

theorem longLineStream_lines : linesOfFrom [] longLineStream
    = [List.replicate maxScanTokenSize 'a', "Accept-Encoding: gzip".toList, []] := by
  rw [longLineStream_eq, linesOfFrom_append _ _ longLine_noLF]
  simp only [List.nil_append, linesOfFrom, if_true, dropCR_append_cr]
  congr 1

theorem longLineStream_scan : scanLines longLineStream = [] := by
  have hlen : ¬ (List.replicate maxScanTokenSize 'a' ++ ['\r']).length < maxScanTokenSize := by
    rw [List.length_append, List.length_replicate]
    exact Nat.not_lt.mpr (Nat.le_add_right _ _)
  rw [scanLines, longLineStream_eq, scanLinesFrom_append _ _ longLine_noLF, List.nil_append,
    scanLinesFrom, if_pos rfl, if_neg hlen]

theorem longLine_head : List.replicate maxScanTokenSize 'a'
    = 'a' :: List.replicate (maxScanTokenSize - 1) 'a' := by
  have h : maxScanTokenSize = (maxScanTokenSize - 1) + 1 := by decide
  conv_lhs => rw [h, List.replicate_succ]

/-- C3 (counterexample): `GET /echo/abc HTTP/1.1` whose header block is one line
of 65536 letters followed by the line `Accept-Encoding: gzip`. The header block
holds exactly one `Accept-Encoding: ` line, its value is `gzip`, and the response
is the uncompressed `abc` without a Content-Encoding header: the Scanner stops at
the long line. -/
theorem C3_long_header_line_hides_gzip :
    acceptEncodingValues (headerBlockLines longLineStream) = ["gzip".toList] ∧
    (∃ e ∈ Split ',' "gzip".toList, TrimSpaces e = "gzip".toList) ∧
    (handleConnection markGzip sampleFS "/srv/www".toList "GET".toList "/echo/abc".toList
        "HTTP/1.1".toList [longLineStream]).written
      = "HTTP/1.1 200 OK\r\nContent-Type: text/plain\r\nContent-Length: 3\r\n\r\nabc\r\n".toList := by
  refine ⟨?_, by decide, ?_⟩
  · rw [headerBlockLines, longLineStream_lines, longLine_head]
    decide
  · have h := echo_route markGzip sampleFS "/srv/www".toList "GET".toList "abc".toList
      [longLineStream] (Or.inl rfl)
    have hflat : [longLineStream].flatten = longLineStream := by simp
    rw [hflat, longLineStream_scan] at h
    exact (congrArg Outcome.written h).trans (by decide)

/-! ## C4: the `/user-agent` scan -/

/-- C4 (failing input): for `GET /user-agent HTTP/1.1` followed by `Host: a`, a
blank line and then the body line `User-Agent: evil`, the scan does not stop at
the blank line and the response body is `evil`, not the empty string. A header line
`User-Agent: curl/8` before the blank line is answered with body `curl/8`. -/
theorem C4_scan_passes_blank_line :
    (handleConnection id sampleFS "/srv/www".toList "GET".toList "/user-agent".toList
        "HTTP/1.1".toList ["Host: a\r\n\r\nUser-Agent: evil\r\n".toList]).written
      = "HTTP/1.1 200 OK\r\nContent-Type: text/plain\r\nContent-Length: 4\r\n\r\nevil\r\n".toList ∧
    (handleConnection id sampleFS "/srv/www".toList "GET".toList "/user-agent".toList
        "HTTP/1.1".toList ["Host: a\r\nUser-Agent: curl/8\r\n\r\n".toList]).written
      = "HTTP/1.1 200 OK\r\nContent-Type: text/plain\r\nContent-Length: 6\r\n\r\ncurl/8\r\n".toList := by
  decide

/-! ## The loops of `bufio.Reader` and of the upload headers end within their fuel -/

theorem connRead_none (n : Nat) (conn : List Str) (h : connRead n conn = none) :
    connBytes conn = 0 := by
  induction conn with
  | nil => rfl
  | cons seg rest ih =>
    rw [connRead] at h
    split_ifs at h with hs
    simp [connBytes, hs] at ih ⊢
    exact ih h

theorem connRead_some (n : Nat) (hn : 0 < n) (conn : List Str) (got : Str) (conn1 : List Str)
    (h : connRead n conn = some (got, conn1)) :
    got ≠ [] ∧ connBytes conn = got.length + connBytes conn1 := by
  induction conn with
  | nil => simp [connRead] at h
  | cons seg rest ih =>
    rw [connRead] at h
    by_cases hs : seg = []
    · rw [if_pos hs] at h
      have := ih h
      simp [connBytes, hs] at this ⊢
      exact this
    · rw [if_neg hs] at h
      have hlen : 0 < seg.length := List.length_pos.mpr hs
      have htake : (seg.take n).length = min n seg.length := List.length_take n seg
      have hdrop : (seg.drop n).length = seg.length - n := List.length_drop n seg
      by_cases hd : seg.drop n = []
      · rw [if_pos hd] at h
        simp only [Option.some.injEq, Prod.mk.injEq] at h
        obtain ⟨hg, hc⟩ := h
        subst hg hc
        rw [hd] at hdrop
        simp only [List.length_nil] at hdrop
        refine ⟨fun h0 => ?_, ?_⟩
        · rw [h0] at htake
          simp only [List.length_nil] at htake
          omega
        · simp only [connBytes, List.map_cons, List.sum_cons]
          omega
      · rw [if_neg hd] at h
        simp only [Option.some.injEq, Prod.mk.injEq] at h
        obtain ⟨hg, hc⟩ := h
        subst hg hc
        refine ⟨fun h0 => ?_, ?_⟩
        · rw [h0] at htake
          simp only [List.length_nil] at htake
          omega
        · simp only [connBytes, List.map_cons, List.sum_cons]
          omega

theorem readStringLoop_succ (fuel : Nat) (acc buf : Str) (conn : List Str) :
    readStringLoop (fuel + 1) acc buf conn
      = match buf.span (fun c => c ≠ '\n') with
        | (line, _ :: unread) => (acc ++ line ++ ['\n'], unread, conn)
        | (_, []) =>
          if defaultBufSize ≤ buf.length then readStringLoop fuel (acc ++ buf) [] conn
          else
            match connRead (defaultBufSize - buf.length) conn with
            | none => (acc ++ buf, [], [])
            | some (got, conn1) => readStringLoop fuel acc (buf ++ got) conn1 := by
  rw [readStringLoop]

/-- Fuel beyond two rounds for each byte to come does not change the result of
`readStringLoop`: the loop has ended before the fuel is used up. -/
theorem readStringLoop_fuel (fuel : Nat) : ∀ (acc buf : Str) (conn : List Str),
    2 * connBytes conn + (if defaultBufSize ≤ buf.length then 1 else 0) + 1 ≤ fuel →
    readStringLoop (fuel + 1) acc buf conn = readStringLoop fuel acc buf conn := by
  induction fuel with
  | zero => intro acc buf conn h; omega
  | succ fuel ih =>
    intro acc buf conn h
    conv_lhs => rw [readStringLoop_succ (fuel + 1)]
    conv_rhs => rw [readStringLoop_succ fuel]
    rcases hsp : buf.span (fun c => c ≠ '\n') with ⟨line, rest⟩
    cases rest with
    | cons c unread => rfl
    | nil =>
      simp only
      by_cases hfull : defaultBufSize ≤ buf.length
      · rw [if_pos hfull] at h
        rw [if_pos hfull, if_pos hfull]
        apply ih
        have : ¬ defaultBufSize ≤ ([] : Str).length := by decide
        rw [if_neg this]
        omega
      · rw [if_neg hfull] at h
        rw [if_neg hfull, if_neg hfull]
        cases hr : connRead (defaultBufSize - buf.length) conn with
        | none => rfl
        | some p =>
          obtain ⟨got, conn1⟩ := p
          simp only
          obtain ⟨hg, hb⟩ := connRead_some _ (by omega) conn got conn1 hr
          have hlen : 0 < got.length := List.length_pos.mpr hg
          apply ih
          split_ifs <;> omega

/-- With any amount of further fuel `readStringLoop` returns what `readString`
returns: the loop of `ReadString` always ends. -/
theorem readString_total (extra : Nat) (buf : Str) (conn : List Str) :
    readStringLoop (2 * connBytes conn + 3 + extra) [] buf conn = readString buf conn := by
  induction extra with
  | zero => rfl
  | succ extra ih =>
    rw [← ih]
    exact readStringLoop_fuel (2 * connBytes conn + 3 + extra) [] buf conn
      (by split_ifs <;> omega)

theorem span_length (p : Char → Bool) (buf line rest : Str) (h : buf.span p = (line, rest)) :
    buf.length = line.length + rest.length := by
  rw [List.span_eq_take_drop] at h
  simp only [Prod.mk.injEq] at h
  obtain ⟨h1, h2⟩ := h
  rw [← h1, ← h2, ← List.length_append, List.takeWhile_append_dropWhile]

/-- The bytes that `readStringLoop` returns, leaves buffered and leaves on the
connection are as many as it started with. -/
theorem readStringLoop_bytes (fuel : Nat) : ∀ (acc buf : Str) (conn : List Str),
    2 * connBytes conn + (if defaultBufSize ≤ buf.length then 1 else 0) + 1 ≤ fuel →
    (readStringLoop fuel acc buf conn).1.length + (readStringLoop fuel acc buf conn).2.1.length
        + connBytes (readStringLoop fuel acc buf conn).2.2
      = acc.length + buf.length + connBytes conn := by
  induction fuel with
  | zero => intro acc buf conn h; omega
  | succ fuel ih =>
    intro acc buf conn h
    rw [readStringLoop_succ fuel]
    rcases hsp : buf.span (fun c => c ≠ '\n') with ⟨line, rest⟩
    have hlen := span_length _ buf line rest hsp
    cases rest with
    | cons c unread =>
      simp only [List.length_append, List.length_cons, List.length_nil] at hlen ⊢
      omega
    | nil =>
      simp only
      by_cases hfull : defaultBufSize ≤ buf.length
      · rw [if_pos hfull] at h
        rw [if_pos hfull]
        have hnot : ¬ defaultBufSize ≤ ([] : Str).length := by decide
        rw [ih (acc ++ buf) [] conn (by rw [if_neg hnot]; omega)]
        simp
      · rw [if_neg hfull] at h
        rw [if_neg hfull]
        cases hr : connRead (defaultBufSize - buf.length) conn with
        | none =>
          have := connRead_none _ conn hr
          simp [connBytes] at this ⊢
          simp [this]
        | some p =>
          obtain ⟨got, conn1⟩ := p
          simp only
          obtain ⟨hg, hb⟩ := connRead_some _ (by omega) conn got conn1 hr
          have hgl : 0 < got.length := List.length_pos.mpr hg
          rw [ih acc (buf ++ got) conn1 (by split_ifs <;> omega)]
          simp only [List.length_append]
          omega

theorem readString_bytes (buf : Str) (conn : List Str) :
    (readString buf conn).1.length + (readString buf conn).2.1.length
        + connBytes (readString buf conn).2.2
      = buf.length + connBytes conn := by
  have := readStringLoop_bytes (2 * connBytes conn + 3) [] buf conn (by split_ifs <;> omega)
  simpa [readString] using this

theorem TrimSuffix_nil (suf : Str) : TrimSuffix [] suf = [] := by
  unfold TrimSuffix
  split_ifs <;> simp

theorem uploadHeaderLoop_succ (fuel : Nat) (contentLength : Int) (buf : Str) (conn : List Str) :
    uploadHeaderLoop (fuel + 1) contentLength buf conn
      = if (TrimSuffix (readString buf conn).1 "\r\n".toList).length = 0 then
          (contentLength, (readString buf conn).2.1, (readString buf conn).2.2)
        else if HasPrefix (TrimSuffix (readString buf conn).1 "\r\n".toList)
            "Content-Length: ".toList = true then
          uploadHeaderLoop fuel (Atoi ((TrimSuffix (readString buf conn).1 "\r\n".toList).drop 16)).1
            (readString buf conn).2.1 (readString buf conn).2.2
        else uploadHeaderLoop fuel contentLength (readString buf conn).2.1
            (readString buf conn).2.2 := by
  rw [uploadHeaderLoop]

/-- Fuel beyond one round for each byte to come does not change the result of the
header loop: the loop has ended before the fuel is used up. -/
theorem uploadHeaderLoop_fuel (fuel : Nat) : ∀ (contentLength : Int) (buf : Str)
    (conn : List Str), buf.length + connBytes conn + 1 ≤ fuel →
    uploadHeaderLoop (fuel + 1) contentLength buf conn
      = uploadHeaderLoop fuel contentLength buf conn := by
  induction fuel with
  | zero => intro contentLength buf conn h; omega
  | succ fuel ih =>
    intro contentLength buf conn h
    conv_lhs => rw [uploadHeaderLoop_succ (fuel + 1)]
    conv_rhs => rw [uploadHeaderLoop_succ fuel]
    have hb := readString_bytes buf conn
    by_cases hline : (TrimSuffix (readString buf conn).1 "\r\n".toList).length = 0
    · rw [if_pos hline, if_pos hline]
    · rw [if_neg hline, if_neg hline]
      have hraw : 0 < (readString buf conn).1.length := by
        rcases hr : (readString buf conn).1 with _ | ⟨c, t⟩
        · rw [hr, TrimSuffix_nil] at hline
          exact absurd rfl hline
        · simp
      have hfuel : (readString buf conn).2.1.length + connBytes (readString buf conn).2.2 + 1
          ≤ fuel := by omega
      rw [ih _ _ _ hfuel, ih _ _ _ hfuel]

/-- With any amount of further fuel the header loop returns what `uploadHeaders`
returns: the loop of lines 199-208 always ends. -/
theorem uploadHeaders_total (extra : Nat) (conn : List Str) :
    uploadHeaderLoop (connBytes conn + 1 + extra) 0 [] conn = uploadHeaders conn := by
  induction extra with
  | zero => rfl
  | succ extra ih =>
    rw [← ih]
    exact uploadHeaderLoop_fuel (connBytes conn + 1 + extra) 0 [] conn
      (by simp only [List.length_nil]; omega)

/-! ## C5, C6, C7: upload -/

/-- C5 (failing input): with `Content-Length: 5` and the body `hello` arriving in
the two segments `he` and `llo`, `handleFileUpload` returns 201 Created and the
file holds the two bytes `he`; the same happens when the stream ends after `he`.
When header block and body arrive in one segment the file holds `hello`, and when
the stream ends right after the blank line the result is 500. -/
theorem C5_single_read_short_file :
    (handleFileUpload sampleFS ["Content-Length: 5\r\n\r\n".toList, "he".toList, "llo".toList]
        "/srv/www/x".toList).status = some (201, "Created".toList) ∧
    (handleFileUpload sampleFS ["Content-Length: 5\r\n\r\n".toList, "he".toList, "llo".toList]
        "/srv/www/x".toList).fs.stat "/srv/www/x".toList = StatResult.file "he".toList ∧
    (handleFileUpload sampleFS ["Content-Length: 5\r\n\r\nhe".toList]
        "/srv/www/x".toList).status = some (201, "Created".toList) ∧
    (handleFileUpload sampleFS ["Content-Length: 5\r\n\r\nhe".toList]
        "/srv/www/x".toList).fs.stat "/srv/www/x".toList = StatResult.file "he".toList ∧
    (handleFileUpload sampleFS ["Content-Length: 5\r\n\r\nhello".toList]
        "/srv/www/x".toList).fs.stat "/srv/www/x".toList = StatResult.file "hello".toList ∧
    (handleFileUpload sampleFS ["Content-Length: 5\r\n\r\n".toList]
        "/srv/www/x".toList).status = some (500, "Internal Server Error".toList) := by
  decide

/-- C6 (failing input): the body length is 5 for `Content-Length: 5` and 0 for an
absent or non-numeric value, but the header `Content-Length: -5` gives the body
length -5 and `handleFileUpload` panics at the allocation; a value too large for
an `int` gives the largest `int`, and the allocation panics as well. -/
theorem C6_negative_length_panics :
    (uploadHeaders ["Content-Length: 5\r\n\r\n".toList]).1 = 5 ∧
    (uploadHeaders ["Host: a\r\n\r\n".toList]).1 = 0 ∧
    (uploadHeaders ["Content-Length: five\r\n\r\n".toList]).1 = 0 ∧
    (uploadHeaders ["Content-Length: -5\r\n\r\n".toList]).1 = -5 ∧
    (handleFileUpload sampleFS ["Content-Length: -5\r\n\r\n".toList]
        "/srv/www/x".toList).status = none ∧
    (uploadHeaders ["Content-Length: 99999999999999999999\r\n\r\n".toList]).1
        = 9223372036854775807 ∧
    (handleFileUpload sampleFS ["Content-Length: 99999999999999999999\r\n\r\n".toList]
        "/srv/www/x".toList).status = none := by
  decide

/-- C7 (failing input): `POST /files/x` with `Content-Length: 5` whose body `hello`
arrives as `he` and `llo` is answered 201 Created, and `GET /files/x` on the
resulting file system is answered 200 OK with Content-Length 2 and body `he`.
When the whole request arrives in one segment the download returns `hello`. -/
theorem C7_round_trip_loses_bytes :
    (handleConnection id sampleFS "/srv/www".toList "POST".toList "/files/x".toList
        "HTTP/1.1".toList ["Content-Length: 5\r\n\r\n".toList, "he".toList, "llo".toList]).written
      = "HTTP/1.1 201 Created\r\nContent-Type: text/plain\r\nContent-Length: 0\r\n\r\n\r\n".toList ∧
    (handleConnection id
        (handleConnection id sampleFS "/srv/www".toList "POST".toList "/files/x".toList
          "HTTP/1.1".toList ["Content-Length: 5\r\n\r\n".toList, "he".toList, "llo".toList]).fs
        "/srv/www".toList "GET".toList "/files/x".toList "HTTP/1.1".toList ["\r\n".toList]).written
      = "HTTP/1.1 200 OK\r\nContent-Type: application/octet-stream\r\nContent-Length: 2\r\n\r\nhe".toList ∧
    (handleConnection id
        (handleConnection id sampleFS "/srv/www".toList "POST".toList "/files/x".toList
          "HTTP/1.1".toList ["Content-Length: 5\r\n\r\nhello".toList]).fs
        "/srv/www".toList "GET".toList "/files/x".toList "HTTP/1.1".toList ["\r\n".toList]).written
      = "HTTP/1.1 200 OK\r\nContent-Type: application/octet-stream\r\nContent-Length: 5\r\n\r\nhello".toList := by
  decide

/-! ## C8: download -/

theorem httpResponse_404 : httpResponse 404 "Not Found".toList [] []
    = "HTTP/1.1 404 Not Found\r\nContent-Type: text/plain\r\nContent-Length: 0\r\n\r\n\r\n".toList := by
  decide

theorem httpResponse_500 : httpResponse 500 "Internal Server Error".toList [] []
    = ("HTTP/1.1 500 Internal Server Error\r\nContent-Type: text/plain\r\n"
        ++ "Content-Length: 0\r\n\r\n\r\n").toList := by
  decide

theorem httpHeader_200 (size : Nat) : httpHeader 200 "OK".toList size
    = "HTTP/1.1 200 OK\r\nContent-Type: application/octet-stream\r\nContent-Length: ".toList
        ++ itoa size ++ "\r\n\r\n".toList := by
  have h : itoa 200 = "200".toList := by decide
  simp [httpHeader, h]

/-- A `GET` request for `/files/<name>` reaches `handleFileRequest` with the joined path. -/
theorem files_route (gzip : Str → Str) (fs : FS) (directory name : Str) (conn : List Str) :
    handleConnection gzip fs directory "GET".toList ("/files/".toList ++ name) "HTTP/1.1".toList conn
      = (match handleFileRequest fs (Join directory name) with
        | (written, statusCode, statusMessage) =>
          if statusCode = 200 then Outcome.closed written fs
          else Outcome.closed (written ++ httpResponse statusCode statusMessage [] []) fs) := by
  simp [handleConnection, HasPrefix, List.isPrefixOf]

/-- A read that may deliver the whole file does so. -/
theorem fileRead_whole (F : Str) (k : Nat) (hk : F.length ≤ k) :
    fileRead F (ReadOutcome.delivers k) = some F := by
  unfold fileRead
  by_cases hF : F = []
  · simp [hF]
  · have hk0 : k ≠ 0 := by
      intro h0
      subst h0
      exact hF (List.length_eq_zero.mp (Nat.le_zero.mp hk))
    simp [hF, hk0, List.take_of_length_le hk]

/-- The answers to `GET /files/<name> HTTP/1.1` that agree with the
specification: a path that does not exist is answered 404 Not Found; a failing
stat, a directory or a file that cannot be opened is answered 500 Internal Server
Error (both `text/plain` with empty body); a regular file with content `F` that
can be opened and whose one `Read` delivers the whole content is answered with
the 200 header block with `Content-Type: application/octet-stream` and
`Content-Length: len(F)`, followed by `F` and nothing else. -/
theorem download_responses (gzip : Str → Str) (fs : FS) (directory name : Str) (conn : List Str) :
    (fs.stat (Join directory name) = StatResult.notExist →
      handleConnection gzip fs directory "GET".toList ("/files/".toList ++ name) "HTTP/1.1".toList conn
        = Outcome.closed
            "HTTP/1.1 404 Not Found\r\nContent-Type: text/plain\r\nContent-Length: 0\r\n\r\n\r\n".toList fs) ∧
    (fs.stat (Join directory name) = StatResult.statError ∨
      fs.stat (Join directory name) = StatResult.dir ∨
      (∃ F, fs.stat (Join directory name) = StatResult.file F ∧
        fs.openFails (Join directory name) = true) →
      handleConnection gzip fs directory "GET".toList ("/files/".toList ++ name) "HTTP/1.1".toList conn
        = Outcome.closed
            ("HTTP/1.1 500 Internal Server Error\r\nContent-Type: text/plain\r\n"
              ++ "Content-Length: 0\r\n\r\n\r\n").toList fs) ∧
    (∀ (F : Str) (k : Nat), fs.stat (Join directory name) = StatResult.file F →
      fs.openFails (Join directory name) = false →
      fs.read (Join directory name) = ReadOutcome.delivers k → F.length ≤ k →
      handleConnection gzip fs directory "GET".toList ("/files/".toList ++ name) "HTTP/1.1".toList conn
        = Outcome.closed
            ("HTTP/1.1 200 OK\r\nContent-Type: application/octet-stream\r\nContent-Length: ".toList
              ++ itoa F.length ++ "\r\n\r\n".toList ++ F) fs) := by
  refine ⟨?_, ?_, ?_⟩
  · intro h
    rw [files_route]
    simp only [handleFileRequest, h]
    rw [if_neg (by decide), httpResponse_404, List.nil_append]
  · intro h
    rw [files_route]
    rcases h with h | h | ⟨F, h, ho⟩
    · simp only [handleFileRequest, h]
      rw [if_neg (by decide), httpResponse_500, List.nil_append]
    · simp only [handleFileRequest, h]
      rw [if_neg (by decide), httpResponse_500, List.nil_append]
    · simp only [handleFileRequest, h, ho, if_true]
      rw [if_neg (by decide), httpResponse_500, List.nil_append]
  · intro F k h ho hr hk
    rw [files_route]
    simp only [handleFileRequest, h, ho, hr, fileRead_whole F k hk, httpHeader_200]
    simp

/-- Three requests on a directory that holds `a.txt` with content `hello`:
`GET /files/b.txt` (absent), `GET /files/` (the directory itself) and
`GET /files/a.txt`. -/
theorem download_responses_examples :
    (handleConnection id oneFileFS "/srv/www".toList "GET".toList "/files/b.txt".toList
        "HTTP/1.1".toList []).written
      = "HTTP/1.1 404 Not Found\r\nContent-Type: text/plain\r\nContent-Length: 0\r\n\r\n\r\n".toList ∧
    (handleConnection id oneFileFS "/srv/www".toList "GET".toList "/files/".toList
        "HTTP/1.1".toList []).written
      = ("HTTP/1.1 500 Internal Server Error\r\nContent-Type: text/plain\r\n"
          ++ "Content-Length: 0\r\n\r\n\r\n").toList ∧
    (handleConnection id oneFileFS "/srv/www".toList "GET".toList "/files/a.txt".toList
        "HTTP/1.1".toList []).written
      = "HTTP/1.1 200 OK\r\nContent-Type: application/octet-stream\r\nContent-Length: 5\r\n\r\nhello".toList := by
  refine ⟨?_, ?_, ?_⟩
  · have h := (download_responses id oneFileFS "/srv/www".toList "b.txt".toList []).1 (by decide)
    exact (congrArg Outcome.written h).trans rfl
  · have h := (download_responses id oneFileFS "/srv/www".toList [] []).2.1 (Or.inr (Or.inl (by decide)))
    exact (congrArg Outcome.written h).trans rfl
  · have h := (download_responses id oneFileFS "/srv/www".toList "a.txt".toList []).2.2
      "hello".toList defaultBufSize (by decide) (by decide) (by decide) (by decide)
    exact (congrArg Outcome.written h).trans (by decide)

/-- A read that delivers fewer bytes than the file holds. -/
theorem fileRead_short (F : Str) (k : Nat) (hk0 : 0 < k) (hk : k < F.length) :
    fileRead F (ReadOutcome.delivers k) = some (F.take k) := by
  have hF : F ≠ [] := by
    intro h
    rw [h] at hk
    exact absurd hk (Nat.not_lt_zero k)
  have hk1 : k ≠ 0 := Nat.pos_iff_ne_zero.mp hk0
  simp [fileRead, hF, hk1]

/-- The answer to `GET /files/<name> HTTP/1.1` for a regular file with content `F`
whose one `Read` delivers only the first `k` bytes: the header block declares
`len(F)`, and the body is those `k` bytes followed by zero bytes, because the
count that `file.Read` returns is dropped and the whole buffer is written. -/
theorem download_short_read (gzip : Str → Str) (fs : FS) (directory name : Str)
    (conn : List Str) (F : Str) (k : Nat)
    (hs : fs.stat (Join directory name) = StatResult.file F)
    (ho : fs.openFails (Join directory name) = false)
    (hr : fs.read (Join directory name) = ReadOutcome.delivers k)
    (hk0 : 0 < k) (hk : k < F.length) :
    handleConnection gzip fs directory "GET".toList ("/files/".toList ++ name) "HTTP/1.1".toList conn
      = Outcome.closed
          ("HTTP/1.1 200 OK\r\nContent-Type: application/octet-stream\r\nContent-Length: ".toList
            ++ itoa F.length ++ "\r\n\r\n".toList
            ++ (F.take k ++ List.replicate (F.length - k) (Char.ofNat 0))) fs := by
  have hlen : (F.take k).length = k := by
    rw [List.length_take]
    exact Nat.min_eq_left (Nat.le_of_lt hk)
  rw [files_route]
  simp only [handleFileRequest, hs, ho, hr, fileRead_short F k hk0 hk, httpHeader_200, hlen]
  simp

/-- After a short read the body differs from the content of the file as soon as
the first byte that was not delivered is not a zero byte. -/
theorem short_read_body_differs (F : Str) (k : Nat) (c : Char) (hc : (F.drop k).head? = some c)
    (hne : c ≠ Char.ofNat 0) :
    F.take k ++ List.replicate (F.length - k) (Char.ofNat 0) ≠ F := by
  intro h
  have h2 : F.take k ++ List.replicate (F.length - k) (Char.ofNat 0)
      = F.take k ++ F.drop k := by
    rw [List.take_append_drop]
    exact h
  have h3 := List.append_cancel_left h2
  rw [← h3] at hc
  cases hn : F.length - k with
  | zero =>
    rw [hn] at hc
    simp at hc
  | succ n =>
    rw [hn, List.replicate_succ] at hc
    simp only [List.head?_cons, Option.some.injEq] at hc
    exact hne hc.symm

/-- C8 (failing input): `GET /files/a.txt HTTP/1.1` for a regular file `a.txt`
with content `hello` that opens and whose one `file.Read` delivers two bytes. The
response is the 200 header block with `Content-Length: 5` followed by `he` and
three zero bytes, not by `hello`. When the read delivers the whole content the
body is `hello`. -/
theorem C8_short_read_pads_with_zero_bytes :
    (handleConnection id shortReadFS "/srv/www".toList "GET".toList "/files/a.txt".toList
        "HTTP/1.1".toList []).written
      = ("HTTP/1.1 200 OK\r\nContent-Type: application/octet-stream\r\nContent-Length: 5\r\n\r\n"
          ++ "he\x00\x00\x00").toList ∧
    (handleConnection id shortReadFS "/srv/www".toList "GET".toList "/files/a.txt".toList
        "HTTP/1.1".toList []).written
      ≠ "HTTP/1.1 200 OK\r\nContent-Type: application/octet-stream\r\nContent-Length: 5\r\n\r\nhello".toList ∧
    (handleConnection id oneFileFS "/srv/www".toList "GET".toList "/files/a.txt".toList
        "HTTP/1.1".toList []).written
      = "HTTP/1.1 200 OK\r\nContent-Type: application/octet-stream\r\nContent-Length: 5\r\n\r\nhello".toList := by
  decide

/-! ## C9: the resolved file path -/

theorem Split_ne_nil (sep : Char) (s : Str) : Split sep s ≠ [] := by
  induction s with
  | nil => simp [Split]
  | cons c s ih =>
    rw [Split]
    split_ifs
    · simp
    · cases h : Split sep s with
      | nil => exact absurd h ih
      | cons p r => simp

theorem Split_append_cons (sep : Char) (y : Str) : ∀ x : Str,
    Split sep (x ++ sep :: y) = Split sep x ++ Split sep y := by
  intro x
  induction x with
  | nil => simp [Split]
  | cons c x ih =>
    rw [List.cons_append, Split, Split, ih]
    split_ifs
    · simp
    · cases h : Split sep x with
      | nil => exact absurd h (Split_ne_nil sep x)
      | cons p r => simp

theorem Split_noSep (sep : Char) (s : Str) : ∀ e ∈ Split sep s, sep ∉ e := by
  induction s with
  | nil => intro e he; simp [Split] at he; simp [he]
  | cons c s ih =>
    intro e he
    rw [Split] at he
    split_ifs at he with hc
    · rcases List.mem_cons.mp he with rfl | he
      · simp
      · exact ih e he
    · cases h : Split sep s with
      | nil => exact absurd h (Split_ne_nil sep s)
      | cons p r =>
        rw [h] at he ih
        simp only [List.mem_cons] at he
        rcases he with rfl | he
        · intro hm
          rcases List.mem_cons.mp hm with hm | hm
          · exact hc hm.symm
          · exact ih p (by simp) hm
        · exact ih e (by simp [he])

theorem foldl_cleanStep_real (rooted : Bool) (elems : List Str)
    (hs : ∀ e ∈ elems, e ≠ ['.', '.']) : ∀ out : List Str,
    elems.foldl (cleanStep rooted) out
      = (elems.filter (fun e => decide (e ≠ [] ∧ e ≠ ['.']))).reverse ++ out := by
  induction elems with
  | nil => intro out; simp
  | cons e elems ih =>
    intro out
    have he : e ≠ ['.', '.'] := hs e (by simp)
    have ih2 := ih (fun x hx => hs x (List.mem_cons_of_mem _ hx))
    rw [List.foldl_cons, ih2, List.filter_cons]
    by_cases h1 : e = [] ∨ e = ['.']
    · have hd : decide (e ≠ [] ∧ e ≠ ['.']) = false := by
        rw [decide_eq_false_iff_not]
        rcases h1 with h | h
        · exact fun hh => hh.1 h
        · exact fun hh => hh.2 h
      simp only [cleanStep, if_pos h1, hd, Bool.false_eq_true, if_false]
    · have hd : decide (e ≠ [] ∧ e ≠ ['.']) = true := by
        rw [decide_eq_true_iff]
        exact ⟨fun h => h1 (Or.inl h), fun h => h1 (Or.inr h)⟩
      simp only [cleanStep, if_neg h1, if_neg he, hd, if_true, List.reverse_cons,
        List.append_assoc, List.singleton_append]

theorem cleanElems_join (d suffix : Str) (hd : d ≠ [])
    (hs : ∀ e ∈ Split '/' suffix, e ≠ ['.', '.']) :
    cleanElems (d ++ '/' :: suffix) = cleanElems d ++ realElems suffix := by
  have hhead : (d ++ '/' :: suffix).head? = d.head? := by
    cases d with
    | nil => exact absurd rfl hd
    | cons c d => rfl
  unfold cleanElems realElems
  rw [hhead, Split_append_cons, List.foldl_append, foldl_cleanStep_real _ _ hs]
  simp

theorem intercalate_cons (sep a : Str) (rest : List Str) :
    sep.intercalate (a :: rest) = a ++ (rest.map (fun e => sep ++ e)).flatten := by
  induction rest generalizing a with
  | nil => simp [List.intercalate]
  | cons b rest ih =>
    have := ih b
    simp only [List.intercalate, List.intersperse] at this ⊢
    simp [this]

theorem intercalate_append (sep : Str) (A B : List Str) (hA : A ≠ []) :
    sep.intercalate (A ++ B) = sep.intercalate A ++ (B.map (fun e => sep ++ e)).flatten := by
  cases A with
  | nil => exact absurd rfl hA
  | cons a A =>
    rw [List.cons_append, intercalate_cons, intercalate_cons]
    simp

theorem renderPath_append (rooted : Bool) (A B : List Str) (hA : A ≠ []) :
    renderPath rooted (A ++ B) = renderPath rooted A ++ (B.map (fun e => '/' :: e)).flatten := by
  have hAB : A ++ B ≠ [] := by simp [hA]
  unfold renderPath
  cases rooted
  · simp only [Bool.false_eq_true, if_false, if_neg hA, if_neg hAB]
    rw [intercalate_append _ _ _ hA]
    rfl
  · simp only [if_true]
    rw [intercalate_append _ _ _ hA]
    rfl

theorem cleanElems_nil_Clean (d : Str) (h : cleanElems d = []) :
    Clean d = ['/'] ∨ Clean d = ['.'] := by
  unfold Clean renderPath
  rw [h]
  split_ifs with h1 h2
  · left; rfl
  · right; rfl
  · exact absurd rfl h2

theorem Join_eq (d suffix : Str) (hd : d ≠ [])
    (hs : ∀ e ∈ Split '/' suffix, e ≠ ['.', '.']) :
    Join d suffix
      = renderPath (decide (d.head? = some '/')) (cleanElems d ++ realElems suffix) := by
  have hhead : (d ++ '/' :: suffix).head? = d.head? := by
    cases d with
    | nil => exact absurd rfl hd
    | cons c d => rfl
  unfold Join Clean
  rw [if_pos hd, hhead, cleanElems_join d suffix hd hs]

theorem realElems_plain (suffix : Str) (hs : ∀ e ∈ Split '/' suffix, e ≠ ['.', '.']) :
    ∀ e ∈ realElems suffix, e ≠ [] ∧ e ≠ ['.'] ∧ e ≠ ['.', '.'] ∧ '/' ∉ e := by
  intro e he
  unfold realElems at he
  rw [List.mem_filter, decide_eq_true_iff] at he
  exact ⟨he.2.1, he.2.2, hs e he.1, Split_noSep '/' suffix e he.1⟩

/-- C9 (amended): for a serving directory `d` that is not the empty string and a
request path `/files/<suffix>` whose suffix has no `..` element, the resolved
path `filepath.Join(d, suffix)` is the cleaned `d` extended by the elements of the
suffix that are neither empty nor `.`, none of which is `..` or holds a
separator; when the cleaned `d` is neither `/` nor `.`, the resolved path is the
cleaned `d` itself or has the cleaned `d` followed by a separator as a prefix. -/
theorem C9_join_stays_inside_without_dotdot (d suffix : Str) (hd : d ≠ [])
    (hs : ∀ e ∈ Split '/' suffix, e ≠ ['.', '.']) :
    (Join d suffix
        = renderPath (decide (d.head? = some '/')) (cleanElems d ++ realElems suffix) ∧
      Clean d = renderPath (decide (d.head? = some '/')) (cleanElems d) ∧
      ∀ e ∈ realElems suffix, e ≠ [] ∧ e ≠ ['.'] ∧ e ≠ ['.', '.'] ∧ '/' ∉ e) ∧
    (Clean d ≠ ['/'] → Clean d ≠ ['.'] →
      Join d suffix = Clean d ∨ (Clean d ++ ['/']) <+: Join d suffix) := by
  refine ⟨⟨Join_eq d suffix hd hs, rfl, realElems_plain suffix hs⟩, ?_⟩
  intro h1 h2
  have hne : cleanElems d ≠ [] := by
    intro h
    rcases cleanElems_nil_Clean d h with h | h
    · exact h1 h
    · exact h2 h
  have hj : Join d suffix
      = Clean d ++ ((realElems suffix).map (fun e => '/' :: e)).flatten := by
    rw [Join_eq d suffix hd hs, renderPath_append _ _ _ hne]
    rfl
  cases hr : realElems suffix with
  | nil =>
    left
    rw [hj, hr]
    simp
  | cons e es =>
    right
    rw [hj, hr]
    exact ⟨e ++ (es.map (fun e => '/' :: e)).flatten, by simp⟩

/-- C9 at the directory `/srv/www` and the request path `/files/a/./b//c.txt`. -/
theorem C9_join_stays_inside_without_dotdot_witness :
    "/srv/www".toList ≠ [] ∧
    (∀ e ∈ Split '/' "a/./b//c.txt".toList, e ≠ ['.', '.']) ∧
    Join "/srv/www".toList "a/./b//c.txt".toList = "/srv/www/a/b/c.txt".toList ∧
    (Join "/srv/www".toList "a/./b//c.txt".toList = Clean "/srv/www".toList ∨
      (Clean "/srv/www".toList ++ ['/']) <+: Join "/srv/www".toList "a/./b//c.txt".toList) :=
  ⟨by decide, by decide, by decide,
    (C9_join_stays_inside_without_dotdot "/srv/www".toList "a/./b//c.txt".toList (by decide)
      (by decide)).2 (by decide) (by decide)⟩

/-- C9 (counterexample): with the serving directory `/srv/www`, the request path
`/files/../../etc/passwd` resolves to `/etc/passwd`, which is not `/srv/www` and
does not start with `/srv/www/`; `GET` of that path is answered with the content
of `/etc/passwd`. -/
theorem C9_dotdot_leaves_directory :
    Join "/srv/www".toList "../../etc/passwd".toList = "/etc/passwd".toList ∧
    Join "/srv/www".toList "../../etc/passwd".toList ≠ "/srv/www".toList ∧
    "/srv/www/".toList.isPrefixOf (Join "/srv/www".toList "../../etc/passwd".toList) = false ∧
    (handleConnection id sampleFS "/srv/www".toList "GET".toList
        "/files/../../etc/passwd".toList "HTTP/1.1".toList []).written
      = "HTTP/1.1 200 OK\r\nContent-Type: application/octet-stream\r\nContent-Length: 4\r\n\r\nroot".toList := by
  decide

/-! ## C10: one response for each connection -/

/-- C10 (failing input): for `GET /files/a.txt` on a file whose read fails after
the 200 header block has been written, a second response with status 500 follows
on the same connection: two status lines are written. -/
theorem C10_second_response_after_header :
    (handleConnection id brokenReadFS "/srv/www".toList "GET".toList "/files/a.txt".toList
        "HTTP/1.1".toList ["\r\n".toList]).written
      = ("HTTP/1.1 200 OK\r\nContent-Type: application/octet-stream\r\nContent-Length: 5\r\n\r\n"
          ++ "HTTP/1.1 500 Internal Server Error\r\nContent-Type: text/plain\r\n"
          ++ "Content-Length: 0\r\n\r\n\r\n").toList ∧
    countOccurrences "HTTP/1.1 ".toList
      (handleConnection id brokenReadFS "/srv/www".toList "GET".toList "/files/a.txt".toList
        "HTTP/1.1".toList ["\r\n".toList]).written = 2 := by
  decide

end HttpServer
